import Mathlib

/-!
TCS34725 autoranging wrapper: embedding and verified properties.

Shallow embedding of `src/tcs34725.cpp` / `src/tcs34725.h`.

Conventions of the embedding:

* `uint8_t` / `uint16_t` values are natural numbers; every store of a C `int`
  expression into a `uint16_t` goes through `u16` (reduction modulo 2^16).
  Arithmetic on promoted operands is done in `Int`, i.e. the C `int` is taken to
  be at least 32 bits wide.
* The wrapped driver object `tcs` and the global `delay` are the environment.
  The calls issued to them are recorded, in order, in the field `trace`; the
  samples they hand back are arguments of the functions (`first` is the sample
  returned by the first channel read of a call, `second` the sample returned by
  the re-read after a change of operating point).
* Indexing `m_agc_lst` outside its bounds is undefined behaviour in C; the
  embedding returns `none` there.
* `float` fields are carried as exact rationals.
-/

/-- Gain settings of the wrapped driver (the enumeration `tcs34725Gain_t`). -/
inductive tcs34725Gain_t
  | TCS34725_GAIN_1X
  | TCS34725_GAIN_4X
  | TCS34725_GAIN_16X
  | TCS34725_GAIN_60X
deriving DecidableEq

/-- Channel data registers read by `getRawData_noDelay`. -/
inductive tcs34725Reg
  | TCS34725_CDATAL
  | TCS34725_RDATAL
  | TCS34725_GDATAL
  | TCS34725_BDATAL
deriving DecidableEq

/-- One call issued to the environment: a method of the wrapped driver `tcs`,
or the global `delay`. -/
inductive Call
  | construct (atime : Nat) (again : tcs34725Gain_t)
  | begin
  | setGain (again : tcs34725Gain_t)
  | setIntegrationTime (atime : Nat)
  | read16 (reg : tcs34725Reg)
  | getRawData
  | delay (ms : Nat)
deriving DecidableEq

/-- One sample of the four channels as handed back by the driver
(four `uint16_t` values). -/
structure RGBC where
  r : Nat
  g : Nat
  b : Nat
  c : Nat
deriving DecidableEq

/-- Row of the gain/time table (`struct tcs_agc`): `atime` is a `uint8_t`,
`mincnt` and `maxcnt` are `uint16_t`. -/
structure tcs_agc where
  again : tcs34725Gain_t
  atime : Nat
  mincnt : Nat
  maxcnt : Nat
deriving DecidableEq

/-- Data members of `class TCS34725`; `trace` stands for the member `tcs`
(together with `delay`) and lists the calls issued so far, oldest first. -/
structure TCS34725 where
  isAvailable : Bool
  isSaturated : Bool
  r_raw : Nat
  g_raw : Nat
  b_raw : Nat
  c_raw : Nat
  ir : Nat
  r_comp : Nat
  g_comp : Nat
  b_comp : Nat
  c_comp : Nat
  saturation : Nat
  saturation75 : Nat
  maxlux : Nat
  cratio : ℚ
  color_temp : ℚ
  lux : ℚ
  trace : List Call
  m_againx : Nat
  m_atime : Nat
  m_atime_ms : Nat
  m_agc_cur : Nat
  m_count_per_lux : ℚ

namespace TCS34725

/-- Conversion of a C `int` value to `uint16_t`. -/
def u16 (z : Int) : Nat := (z % 65536).toNat

/-- Modelled from the spec: the driver header defining the integration-time
codes is not part of the sources; the 614 ms setting is register value 0x00
(256 steps of 2.4 ms). -/
def TCS34725_INTEGRATIONTIME_614MS : Nat := 0x00

/-- Modelled from the spec: the driver header defining the integration-time
codes is not part of the sources; the 154 ms setting is register value 0xC0 = 192
(64 steps of 2.4 ms). -/
def TCS34725_INTEGRATIONTIME_154MS : Nat := 0xC0

/-- The gain/time table `m_agc_lst`, from dim to bright. -/
def m_agc_lst : List tcs_agc :=
  [ ⟨.TCS34725_GAIN_60X, TCS34725_INTEGRATIONTIME_614MS,     0, 20000⟩,
    ⟨.TCS34725_GAIN_60X, TCS34725_INTEGRATIONTIME_154MS,  4990, 63000⟩,
    ⟨.TCS34725_GAIN_16X, TCS34725_INTEGRATIONTIME_154MS, 16790, 63000⟩,
    ⟨.TCS34725_GAIN_4X,  TCS34725_INTEGRATIONTIME_154MS, 15740, 63000⟩,
    ⟨.TCS34725_GAIN_1X,  TCS34725_INTEGRATIONTIME_154MS, 15740,     0⟩ ]

/-- Constructor `TCS34725::TCS34725()`: initialises `isAvailable`, `isSaturated`
and `m_agc_cur`; the other members keep whatever `mem` holds. No call has been
issued to the driver yet. -/
def ctor (mem : TCS34725) : TCS34725 :=
  { mem with isAvailable := false, isSaturated := false, m_agc_cur := 3, trace := [] }

/-- The value `uint16_t(n * 2.4)` for a C `int` `n`. For `0 ≤ n ≤ 256` the
floating-point product truncates to the integer part of `12 n / 5`: the product
is either within rounding distance of the exact integer `12 n / 5` (when 5
divides `n`, where it rounds to that integer) or at least 0.2 away from any
integer. -/
def scale_2_4 (n : Int) : Nat := u16 (Int.tdiv (n * 12) 5)

/-- Multiplier selected by the `switch` on the gain in `setGainTime`. -/
def againx : tcs34725Gain_t → Nat
  | .TCS34725_GAIN_1X => 1
  | .TCS34725_GAIN_4X => 4
  | .TCS34725_GAIN_16X => 16
  | .TCS34725_GAIN_60X => 60

/-- Method `TCS34725::setGainTime` over the table `agc`. -/
def setGainTime (agc : List tcs_agc) (s : TCS34725) : Option TCS34725 :=
  match agc[s.m_agc_cur]? with
  | none => none
  | some e =>
    let m_atime := u16 e.atime
    let m_atime_ms := scale_2_4 (256 - (m_atime : Int))
    let m_againx := againx e.again
    some { s with
      trace := s.trace ++ [Call.setGain e.again, Call.setIntegrationTime e.atime],
      m_atime := m_atime,
      m_atime_ms := m_atime_ms,
      m_againx := m_againx,
      m_count_per_lux := ((m_atime_ms * m_againx : Nat) : ℚ) / (1 * 310) }

/-- Method `TCS34725::begin` over the table `agc`; `probe` is what the driver's
`begin()` answers. -/
def begin (agc : List tcs_agc) (probe : Bool) (s : TCS34725) : Option (Bool × TCS34725) :=
  match agc[s.m_agc_cur]? with
  | none => none
  | some e =>
    let s1 := { s with
      trace := s.trace ++ [Call.construct e.atime e.again, Call.begin],
      isAvailable := probe }
    if probe then
      match setGainTime agc s1 with
      | none => none
      | some s2 => some (true, s2)
    else some (false, s1)

/-- Method `TCS34725::getRawData_noDelay`: four register reads, clear first. -/
def getRawData_noDelay (rd : RGBC) (s : TCS34725) : TCS34725 :=
  { s with
    trace := s.trace ++ [Call.read16 .TCS34725_CDATAL, Call.read16 .TCS34725_RDATAL,
      Call.read16 .TCS34725_GDATAL, Call.read16 .TCS34725_BDATAL],
    c_raw := rd.c, r_raw := rd.r, g_raw := rd.g, b_raw := rd.b }

/-- The driver's blocking read `tcs.getRawData(&r_raw, &g_raw, &b_raw, &c_raw)`. -/
def getRawData (rd : RGBC) (s : TCS34725) : TCS34725 :=
  { s with
    trace := s.trace ++ [Call.getRawData],
    r_raw := rd.r, g_raw := rd.g, b_raw := rd.b, c_raw := rd.c }

/-- The global `delay(ms)`. -/
def delay (ms : Nat) (s : TCS34725) : TCS34725 :=
  { s with trace := s.trace ++ [Call.delay ms] }

/-- Method `TCS34725::autorange` over the table `agc`. The result is the
returned boolean paired with the object after the call. -/
def autorange (agc : List tcs_agc) (noDelay : Bool) (first second : RGBC) (s : TCS34725) :
    Option (Bool × TCS34725) :=
  let s1 := if noDelay then getRawData_noDelay first s else getRawData first s
  match agc[s1.m_agc_cur]? with
  | none => none
  | some e =>
    let moved : Option TCS34725 :=
      if e.maxcnt ≠ 0 ∧ s1.c_raw > e.maxcnt then
        some { s1 with m_agc_cur := u16 ((s1.m_agc_cur : Int) + 1) }
      else if e.mincnt ≠ 0 ∧ s1.c_raw < e.mincnt then
        some { s1 with m_agc_cur := u16 ((s1.m_agc_cur : Int) - 1) }
      else none
    match moved with
    | none => some (true, s1)
    | some s2 =>
      match setGainTime agc s2 with
      | none => none
      | some s3 =>
        if noDelay then some (false, s3)
        else some (true, getRawData second (delay (s3.m_atime_ms * 2) s3))

/-- Method `TCS34725::updateData` over the table `agc`. -/
def updateData (agc : List tcs_agc) (noDelay : Bool) (first second : RGBC) (s : TCS34725) :
    Option (Bool × TCS34725) :=
  match autorange agc noDelay first second s with
  | none => none
  | some (false, s1) => some (false, s1)
  | some (true, s1) =>
    let saturation : Nat :=
      if (256 : Int) - s1.m_atime > 63 then u16 65535 else u16 (1024 * (256 - (s1.m_atime : Int)))
    let saturation75 : Nat :=
      if s1.m_atime_ms < 150 then u16 ((saturation : Int) - saturation / 4) else saturation
    let isSaturated : Bool := decide (s1.m_atime_ms < 150 ∧ s1.c_raw > saturation75)
    let s2 := { s1 with
      saturation := saturation, saturation75 := saturation75, isSaturated := isSaturated }
    if isSaturated then some (false, s2)
    else
      let ir : Nat :=
        if s2.r_raw + s2.g_raw + s2.b_raw > s2.c_raw then
          u16 (((s2.r_raw + s2.g_raw + s2.b_raw + s2.c_raw) >>> 1 : Nat) : Int)
        else 0
      some (true, { s2 with
        ir := ir,
        r_comp := u16 ((s2.r_raw : Int) - ir),
        g_comp := u16 ((s2.g_raw : Int) - ir),
        b_comp := u16 ((s2.b_raw : Int) - ir),
        c_comp := u16 ((s2.c_raw : Int) - ir) })

/-- Successive calls of `autorange`, one per element of `calls` (the `noDelay`
flag of the call, the sample of its first read, the sample of its re-read). -/
def autorangeRun (agc : List tcs_agc) : List (Bool × RGBC × RGBC) → TCS34725 → Option TCS34725
  | [], s => some s
  | (noDelay, first, second) :: rest, s =>
    match autorange agc noDelay first second s with
    | none => none
    | some (_, s1) => autorangeRun agc rest s1

/-- The table convention stated above `m_agc_lst`: the first row has
`mincnt = 0` and the last row has `maxcnt = 0`. -/
def sentinels (agc : List tcs_agc) : Bool :=
  match agc.head?, agc.getLast? with
  | some lo, some hi => lo.mincnt == 0 && hi.maxcnt == 0
  | _, _ => false

/-- An arbitrary content of the object's memory, used to build concrete
objects. -/
def mem0 : TCS34725 :=
  { isAvailable := false, isSaturated := false, r_raw := 0, g_raw := 0, b_raw := 0, c_raw := 0,
    ir := 0, r_comp := 0, g_comp := 0, b_comp := 0, c_comp := 0, saturation := 0,
    saturation75 := 0, maxlux := 0, cratio := 0, color_temp := 0, lux := 0, trace := [],
    m_againx := 0, m_atime := 0, m_atime_ms := 0, m_agc_cur := 0, m_count_per_lux := 0 }

/-- The first channel read of `autorange`. -/
def firstRead (noDelay : Bool) (first : RGBC) (s : TCS34725) : TCS34725 :=
  if noDelay then getRawData_noDelay first s else getRawData first s

/-- The test `maxcnt && (c_raw > maxcnt)` of `autorange` on row `e`. -/
def TooBright (e : tcs_agc) (c : Nat) : Prop := e.maxcnt ≠ 0 ∧ c > e.maxcnt

/-- The test `mincnt && (c_raw < mincnt)` of `autorange` on row `e`. -/
def TooDim (e : tcs_agc) (c : Nat) : Prop := e.mincnt ≠ 0 ∧ c < e.mincnt

/-- The two ways the index can move, with the index `j` it moves to. -/
def Moves (e : tcs_agc) (c i j : Nat) : Prop :=
  (TooBright e c ∧ j = u16 ((i : Int) + 1)) ∨
    (¬ TooBright e c ∧ TooDim e c ∧ j = u16 ((i : Int) - 1))

/-- The fields computed by the DN40 part of `updateData` agree in `s` and `t`. -/
def SameDerived (s t : TCS34725) : Prop :=
  t.saturation = s.saturation ∧ t.saturation75 = s.saturation75 ∧
    t.isSaturated = s.isSaturated ∧ t.ir = s.ir ∧ t.r_comp = s.r_comp ∧
    t.g_comp = s.g_comp ∧ t.b_comp = s.b_comp ∧ t.c_comp = s.c_comp

/-- The raw fields of `t` hold the sample `rd`. -/
def HoldsSample (rd : RGBC) (t : TCS34725) : Prop :=
  t.r_raw = rd.r ∧ t.g_raw = rd.g ∧ t.b_raw = rd.b ∧ t.c_raw = rd.c

/-- The calls of one channel read: four register reads when `noDelay`, one
blocking driver read otherwise. -/
def readCalls (noDelay : Bool) : List Call :=
  if noDelay then
    [Call.read16 .TCS34725_CDATAL, Call.read16 .TCS34725_RDATAL,
      Call.read16 .TCS34725_GDATAL, Call.read16 .TCS34725_BDATAL]
  else [Call.getRawData]

instance (e : tcs_agc) (c : Nat) : Decidable (TooBright e c) := by
  unfold TooBright; infer_instance

instance (e : tcs_agc) (c : Nat) : Decidable (TooDim e c) := by
  unfold TooDim; infer_instance

/-- The saturation step of `updateData`: the object after the assignments to
`saturation`, `saturation75` and `isSaturated`, from the object `s1` left by
`autorange`. -/
def satStage (s1 : TCS34725) : TCS34725 :=
  let saturation : Nat :=
    if (256 : Int) - s1.m_atime > 63 then u16 65535 else u16 (1024 * (256 - (s1.m_atime : Int)))
  let saturation75 : Nat :=
    if s1.m_atime_ms < 150 then u16 ((saturation : Int) - saturation / 4) else saturation
  { s1 with
    saturation := saturation, saturation75 := saturation75,
    isSaturated := decide (s1.m_atime_ms < 150 ∧ s1.c_raw > saturation75) }

/-- The infrared step of `updateData`: the object after the assignments to
`ir` and the four compensated channels. -/
def irStage (s2 : TCS34725) : TCS34725 :=
  let ir : Nat :=
    if s2.r_raw + s2.g_raw + s2.b_raw > s2.c_raw then
      u16 (((s2.r_raw + s2.g_raw + s2.b_raw + s2.c_raw) >>> 1 : Nat) : Int)
    else 0
  { s2 with
    ir := ir,
    r_comp := u16 ((s2.r_raw : Int) - ir),
    g_comp := u16 ((s2.g_raw : Int) - ir),
    b_comp := u16 ((s2.b_raw : Int) - ir),
    c_comp := u16 ((s2.c_raw : Int) - ir) }

/-- The table of the source with the integration-time register of the four
154 ms rows set to `a`; used to build objects whose cached integration time is
not 153 ms. -/
def agcWith (a : Nat) : List tcs_agc :=
  [ ⟨.TCS34725_GAIN_60X, TCS34725_INTEGRATIONTIME_614MS, 0, 20000⟩,
    ⟨.TCS34725_GAIN_60X, a,  4990, 63000⟩,
    ⟨.TCS34725_GAIN_16X, a, 16790, 63000⟩,
    ⟨.TCS34725_GAIN_4X,  a, 15740, 63000⟩,
    ⟨.TCS34725_GAIN_1X,  a, 15740,     0⟩ ]

/-- The object after construction and a successful `begin()` over the table
`agc`. -/
def startAt (agc : List tcs_agc) : TCS34725 :=
  match begin agc true (ctor mem0) with
  | some (_, s) => s
  | none => ctor mem0

/-- Sensitivity of a row: gain multiplier times the number of 2.4 ms
integration steps `256 - atime`. -/
def sensitivity (e : tcs_agc) : Nat := againx e.again * (256 - e.atime)

/-- Successive calls of `autorange`, keeping for each call the returned
boolean and the object it leaves. -/
def autorangeLog (agc : List tcs_agc) :
    List (Bool × RGBC × RGBC) → TCS34725 → Option (List (Bool × TCS34725))
  | [], _ => some []
  | (noDelay, first, second) :: rest, s =>
    match autorange agc noDelay first second s with
    | none => none
    | some (ok, s1) =>
      match autorangeLog agc rest s1 with
      | none => none
      | some out => some ((ok, s1) :: out)

/-- One call made by the application or by `updateData` itself. -/
inductive Op
  | autorange (noDelay : Bool) (first second : RGBC)
  | updateData (noDelay : Bool) (first second : RGBC)

/-- Successive calls of `autorange` / `updateData`. -/
def run (agc : List tcs_agc) : List Op → TCS34725 → Option TCS34725
  | [], s => some s
  | Op.autorange noDelay first second :: rest, s =>
    match autorange agc noDelay first second s with
    | none => none
    | some (_, s1) => run agc rest s1
  | Op.updateData noDelay first second :: rest, s =>
    match updateData agc noDelay first second s with
    | none => none
    | some (_, s1) => run agc rest s1

/-- The cached constants describe row `e`: register value, integration time in
ms (integer part of `(256 - atime) * 2.4`) and gain multiplier. -/
def Cached (e : tcs_agc) (s : TCS34725) : Prop :=
  s.m_atime = e.atime ∧ s.m_atime_ms = (256 - e.atime) * 12 / 5 ∧ s.m_againx = againx e.again

/-- Conversion of a `float` value to `uint16_t` (`static_cast<uint16_t>`):
the fractional part is discarded. Values outside the range of `uint16_t`, for
which the conversion is undefined in C++, are reduced modulo 2^16. -/
def floatToU16 (q : ℚ) : Nat := u16 (Int.tdiv q.num q.den)

/-- Method `TCS34725::updateClearChannelRatio`. -/
def updateClearChannelRatio (s : TCS34725) : TCS34725 :=
  { s with cratio := (s.ir : ℚ) / (s.c_raw : ℚ) }

/-- Method `TCS34725::updateLux`, with the coefficients `TCS34725_R_Coef`
0.136, `TCS34725_G_Coef` 1.000 and `TCS34725_B_Coef` -0.444. -/
def updateLux (s : TCS34725) : TCS34725 :=
  { s with
    maxlux := floatToU16 (65535 / (s.m_count_per_lux * 3)),
    lux := ((136 / 1000 : ℚ) * s.r_comp + (1 : ℚ) * s.g_comp + (-444 / 1000 : ℚ) * s.b_comp) /
      s.m_count_per_lux }

/-- Method `TCS34725::updateColorTemperature`, with `TCS34725_CT_Coef` 3810.0
and `TCS34725_CT_Offset` 1391.0. -/
def updateColorTemperature (s : TCS34725) : TCS34725 :=
  { s with color_temp := ((3810 : ℚ) * s.b_comp) / (s.r_comp : ℚ) + 1391 }

/-- The cached constants of `s` describe the row of `agc` at the current
index. -/
def CachedAt (agc : List tcs_agc) (s : TCS34725) : Prop :=
  ∃ e, agc[s.m_agc_cur]? = some e ∧ Cached e s

/-! Auxiliary facts -/

theorem u16_of_lt (n : Nat) (h : n < 65536) : u16 (n : Int) = n := by
  unfold u16; omega

theorem u16_succ_le (n : Nat) : u16 ((n : Int) + 1) ≤ n + 1 := by
  unfold u16; omega

theorem u16_pred_lt (n : Nat) (h : 0 < n) : u16 ((n : Int) - 1) < n := by
  unfold u16; omega

/-- In a table with the sentinels, a row with a non-zero `maxcnt` is not the
last one. -/
theorem succ_lt_of_maxcnt {agc : List tcs_agc} {i : Nat} {e : tcs_agc}
    (hs : sentinels agc = true) (he : agc[i]? = some e) (hmax : e.maxcnt ≠ 0) :
    i + 1 < agc.length := by
  obtain ⟨hi, hget⟩ := List.getElem?_eq_some.mp he
  by_contra hcon
  have hidx : i = agc.length - 1 := by omega
  have hlast : agc.getLast? = some e := by
    rw [List.getLast?_eq_getElem?, ← hidx]; exact he
  unfold sentinels at hs
  rw [hlast] at hs
  cases hh : agc.head? with
  | none => simp [hh] at hs
  | some lo =>
    simp [hh] at hs
    exact hmax hs.2

/-- In a table with the sentinels, a row with a non-zero `mincnt` is not the
first one. -/
theorem pos_of_mincnt {agc : List tcs_agc} {i : Nat} {e : tcs_agc}
    (hs : sentinels agc = true) (he : agc[i]? = some e) (hmin : e.mincnt ≠ 0) :
    0 < i := by
  by_contra hcon
  have hidx : i = 0 := by omega
  have hfirst : agc.head? = some e := by
    rw [List.head?_eq_getElem?, ← hidx]; exact he
  unfold sentinels at hs
  rw [hfirst] at hs
  cases hh : agc.getLast? with
  | none => simp [hh] at hs
  | some hi =>
    simp [hh] at hs
    exact hmin hs.1

theorem firstRead_facts (noDelay : Bool) (first : RGBC) (s : TCS34725) :
    (firstRead noDelay first s).m_agc_cur = s.m_agc_cur ∧
      (firstRead noDelay first s).trace = s.trace ++ readCalls noDelay ∧
      (firstRead noDelay first s).m_atime = s.m_atime ∧
      (firstRead noDelay first s).m_atime_ms = s.m_atime_ms ∧
      (firstRead noDelay first s).m_againx = s.m_againx ∧
      (firstRead noDelay first s).m_count_per_lux = s.m_count_per_lux ∧
      HoldsSample first (firstRead noDelay first s) ∧
      SameDerived s (firstRead noDelay first s) := by
  cases noDelay <;>
    exact ⟨rfl, rfl, rfl, rfl, rfl, rfl, ⟨rfl, rfl, rfl, rfl⟩,
      ⟨rfl, rfl, rfl, rfl, rfl, rfl, rfl, rfl⟩⟩

/-- Accepted sample: no change of operating point. -/
theorem autorange_keep {agc : List tcs_agc} {s : TCS34725} {e : tcs_agc}
    (noDelay : Bool) (first second : RGBC)
    (he : agc[s.m_agc_cur]? = some e)
    (hup : ¬ TooBright e first.c) (hdn : ¬ TooDim e first.c) :
    autorange agc noDelay first second s = some (true, firstRead noDelay first s) := by
  unfold TooBright at hup
  unfold TooDim at hdn
  cases noDelay <;>
    simp [autorange, firstRead, getRawData, getRawData_noDelay, he, hup, hdn]

/-- Change of operating point: the index moves to `j`, `setGainTime` is run
there, and the call ends according to `noDelay`. -/
theorem autorange_move {agc : List tcs_agc} {s : TCS34725} {e : tcs_agc}
    (noDelay : Bool) (first second : RGBC)
    (he : agc[s.m_agc_cur]? = some e)
    (j : Nat) (hj : Moves e first.c s.m_agc_cur j) :
    autorange agc noDelay first second s =
      match setGainTime agc { firstRead noDelay first s with m_agc_cur := j } with
      | none => none
      | some s3 =>
        if noDelay then some (false, s3)
        else some (true, getRawData second (delay (s3.m_atime_ms * 2) s3)) := by
  unfold Moves TooBright TooDim at hj
  rcases hj with ⟨⟨h1, h2⟩, h3⟩ | ⟨h0, ⟨h1, h2⟩, h3⟩
  · cases noDelay <;>
      simp [autorange, firstRead, getRawData, getRawData_noDelay, he, h1, h2, h3]
  · cases noDelay <;>
      simp [autorange, firstRead, getRawData, getRawData_noDelay, he, h0, h1, h2, h3]

theorem moves_lt {agc : List tcs_agc} {i j c : Nat} {e : tcs_agc}
    (hs : sentinels agc = true) (he : agc[i]? = some e) (hj : Moves e c i j) :
    j < agc.length := by
  obtain ⟨hi, -⟩ := List.getElem?_eq_some.mp he
  rcases hj with ⟨h1, h3⟩ | ⟨-, h1, h3⟩
  · have h := succ_lt_of_maxcnt hs he h1.1
    have h' := u16_succ_le i
    omega
  · have h := pos_of_mincnt hs he h1.1
    have h' := u16_pred_lt i h
    omega

/-- Change of operating point in a table with the sentinels: the new row `e'`
exists, `setGainTime` succeeds there with result `s3`, and the call returns. -/
theorem autorange_move_some {agc : List tcs_agc} {s : TCS34725} {e : tcs_agc}
    (noDelay : Bool) (first second : RGBC)
    (hs : sentinels agc = true) (he : agc[s.m_agc_cur]? = some e)
    (j : Nat) (hj : Moves e first.c s.m_agc_cur j) :
    ∃ e' s3, agc[j]? = some e' ∧
      autorange agc noDelay first second s =
        (if noDelay then some (false, s3)
         else some (true, getRawData second (delay (s3.m_atime_ms * 2) s3))) ∧
      s3.m_agc_cur = j ∧
      s3.trace = s.trace ++ readCalls noDelay ++
        [Call.setGain e'.again, Call.setIntegrationTime e'.atime] ∧
      s3.m_atime = u16 e'.atime ∧
      s3.m_atime_ms = scale_2_4 (256 - (u16 e'.atime : Int)) ∧
      s3.m_againx = againx e'.again ∧
      HoldsSample first s3 ∧ SameDerived s s3 := by
  have hlt := moves_lt hs he hj
  have he' : agc[j]? = some agc[j] := List.getElem?_eq_getElem hlt
  have hmove := autorange_move noDelay first second he j hj
  unfold setGainTime at hmove
  simp only [he'] at hmove
  refine ⟨agc[j], _, he', hmove, ?_⟩
  cases noDelay <;>
    exact ⟨rfl, rfl, rfl, rfl, rfl, ⟨rfl, rfl, rfl, rfl⟩,
      ⟨rfl, rfl, rfl, rfl, rfl, rfl, rfl, rfl⟩⟩

theorem moves_or_keep (e : tcs_agc) (c i : Nat) :
    (∃ j, Moves e c i j) ∨ (¬ TooBright e c ∧ ¬ TooDim e c) := by
  by_cases hup : TooBright e c
  · exact Or.inl ⟨_, Or.inl ⟨hup, rfl⟩⟩
  · by_cases hdn : TooDim e c
    · exact Or.inl ⟨_, Or.inr ⟨hup, hdn, rfl⟩⟩
    · exact Or.inr ⟨hup, hdn⟩

/-- One call of `autorange` from an index inside a table with the sentinels
returns, with the index still inside the table. -/
theorem autorange_in_range {agc : List tcs_agc} (hs : sentinels agc = true)
    (noDelay : Bool) (first second : RGBC) (s : TCS34725) (hi : s.m_agc_cur < agc.length) :
    ∃ ok s', autorange agc noDelay first second s = some (ok, s') ∧
      s'.m_agc_cur < agc.length := by
  have he : agc[s.m_agc_cur]? = some agc[s.m_agc_cur] := List.getElem?_eq_getElem hi
  rcases moves_or_keep agc[s.m_agc_cur] first.c s.m_agc_cur with ⟨j, hj⟩ | ⟨hup, hdn⟩
  · obtain ⟨e', s3, -, hauto, hcur, -⟩ := autorange_move_some noDelay first second hs he j hj
    have hlt := moves_lt hs he hj
    cases noDelay
    · refine ⟨true, _, by rw [hauto]; rfl, ?_⟩
      show s3.m_agc_cur < agc.length
      omega
    · refine ⟨false, s3, by rw [hauto]; rfl, ?_⟩
      omega
  · refine ⟨true, _, autorange_keep noDelay first second he hup hdn, ?_⟩
    rw [(firstRead_facts noDelay first s).1]
    exact hi

theorem updateData_eq (agc : List tcs_agc) (noDelay : Bool) (first second : RGBC)
    (s : TCS34725) :
    updateData agc noDelay first second s =
      match autorange agc noDelay first second s with
      | none => none
      | some (false, s1) => some (false, s1)
      | some (true, s1) =>
        if (satStage s1).isSaturated then some (false, satStage s1)
        else some (true, irStage (satStage s1)) := by
  unfold updateData
  split <;> rfl

/-- After an accepted `autorange`, `updateData` returns; its result and final
object are those of the saturation and infrared steps. -/
theorem updateData_accept {agc : List tcs_agc} {noDelay : Bool} {first second : RGBC}
    {s s1 : TCS34725} (h : autorange agc noDelay first second s = some (true, s1)) :
    ∃ s2, updateData agc noDelay first second s = some (!(satStage s1).isSaturated, s2) ∧
      s2.saturation = (satStage s1).saturation ∧
      s2.saturation75 = (satStage s1).saturation75 ∧
      s2.isSaturated = (satStage s1).isSaturated ∧
      s2.m_atime = s1.m_atime ∧ s2.m_atime_ms = s1.m_atime_ms ∧
      s2.m_agc_cur = s1.m_agc_cur ∧ s2.trace = s1.trace ∧
      s2.r_raw = s1.r_raw ∧ s2.g_raw = s1.g_raw ∧ s2.b_raw = s1.b_raw ∧ s2.c_raw = s1.c_raw ∧
      ((satStage s1).isSaturated = false → s2 = irStage (satStage s1)) := by
  rw [updateData_eq, h]
  dsimp only
  cases hsat : (satStage s1).isSaturated
  · exact ⟨irStage (satStage s1), rfl, rfl, rfl, hsat, rfl, rfl, rfl, rfl, rfl, rfl, rfl, rfl,
      fun _ => rfl⟩
  · exact ⟨satStage s1, rfl, rfl, rfl, hsat, rfl, rfl, rfl, rfl, rfl, rfl, rfl, rfl,
      fun hf => absurd hf (by decide)⟩

theorem updateData_reject {agc : List tcs_agc} {noDelay : Bool} {first second : RGBC}
    {s s1 : TCS34725} (h : autorange agc noDelay first second s = some (false, s1)) :
    updateData agc noDelay first second s = some (false, s1) := by
  rw [updateData_eq, h]

/-- A `true` result of `updateData` comes from an accepted `autorange` followed
by an unsaturated saturation step and the infrared step. -/
theorem updateData_true {agc : List tcs_agc} {noDelay : Bool} {first second : RGBC}
    {s s' : TCS34725} (h : updateData agc noDelay first second s = some (true, s')) :
    ∃ s1, autorange agc noDelay first second s = some (true, s1) ∧
      (satStage s1).isSaturated = false ∧ s' = irStage (satStage s1) := by
  rw [updateData_eq] at h
  cases hauto : autorange agc noDelay first second s with
  | none => rw [hauto] at h; simp at h
  | some res =>
    obtain ⟨ok, s1⟩ := res
    rw [hauto] at h
    cases ok
    · simp at h
    · dsimp only at h
      cases hsat : (satStage s1).isSaturated
      · rw [hsat] at h
        simp at h
        exact ⟨s1, rfl, hsat, h.symm⟩
      · rw [hsat] at h
        simp at h

theorem satStage_saturation (s1 : TCS34725) (h : s1.m_atime ≤ 255) :
    (satStage s1).saturation =
      (if 256 - s1.m_atime > 63 then 65535 else 1024 * (256 - s1.m_atime)) := by
  show (if (256 : Int) - s1.m_atime > 63 then u16 65535
    else u16 (1024 * (256 - (s1.m_atime : Int)))) = _
  unfold u16
  split_ifs <;> omega

theorem satStage_saturation75 (s1 : TCS34725) :
    (satStage s1).saturation75 =
      (if s1.m_atime_ms < 150 then
        u16 (((satStage s1).saturation : Int) - (satStage s1).saturation / 4)
       else (satStage s1).saturation) := rfl

theorem satStage_isSaturated (s1 : TCS34725) :
    (satStage s1).isSaturated =
      decide (s1.m_atime_ms < 150 ∧ s1.c_raw > (satStage s1).saturation75) := rfl

theorem scale_2_4_lt_150 (a : Nat) (ha : a ≤ 255)
    (h : scale_2_4 (256 - (a : Int)) < 150) : 194 ≤ a := by
  unfold scale_2_4 u16 at h
  rw [Int.tdiv_eq_ediv (by omega) (by omega)] at h
  have h3 : 0 ≤ (256 - (a : Int)) * 12 / 5 := by omega
  have h4 : (256 - (a : Int)) * 12 / 5 < 65536 := by omega
  rw [Int.emod_eq_of_lt h3 h4] at h
  omega

/-- One non-blocking call on the table of the source with a clear reading
above 63000: the index moves up by one and the call returns `false`, except at
index 4 where the sample is accepted. -/
theorem climb_step (first second : RGBC) (s : TCS34725) (hi : s.m_agc_cur ≤ 4)
    (hc : 63000 < first.c) :
    ∃ s1, autorange m_agc_lst true first second s = some (decide (s.m_agc_cur = 4), s1) ∧
      s1.m_agc_cur = min (s.m_agc_cur + 1) 4 := by
  have hrow : ∃ e, m_agc_lst[s.m_agc_cur]? = some e ∧
      (s.m_agc_cur < 4 → e.maxcnt ≠ 0 ∧ e.maxcnt ≤ 63000) ∧
      (s.m_agc_cur = 4 → e.maxcnt = 0 ∧ e.mincnt ≤ 63000) := by
    generalize s.m_agc_cur = i at hi
    interval_cases i <;> exact ⟨_, rfl, by decide, by decide⟩
  obtain ⟨e, he, hlow, htop⟩ := hrow
  by_cases h4 : s.m_agc_cur = 4
  · obtain ⟨hmax, hmin⟩ := htop h4
    have hup : ¬ TooBright e first.c := fun h => h.1 hmax
    have hdn : ¬ TooDim e first.c := fun h => by
      have := h.2
      omega
    refine ⟨firstRead true first s, ?_, ?_⟩
    · rw [autorange_keep true first second he hup hdn]
      simp [h4]
    · rw [(firstRead_facts true first s).1, h4]
      rfl
  · have hlt : s.m_agc_cur < 4 := by omega
    obtain ⟨hmax, hle⟩ := hlow hlt
    have hj : Moves e first.c s.m_agc_cur (u16 ((s.m_agc_cur : Int) + 1)) :=
      Or.inl ⟨⟨hmax, by omega⟩, rfl⟩
    obtain ⟨e', s3, -, hauto, hcur, -⟩ :=
      autorange_move_some true first second (by decide) he _ hj
    refine ⟨s3, ?_, ?_⟩
    · rw [hauto]
      simp [h4]
    · rw [hcur]
      unfold u16
      omega

/-- One non-blocking call on the table of the source with a clear reading
below 4990: the index moves down by one and the call returns `false`, except at
index 0 where the sample is accepted. -/
theorem descend_step (first second : RGBC) (s : TCS34725) (hi : s.m_agc_cur ≤ 4)
    (hc : first.c < 4990) :
    ∃ s1, autorange m_agc_lst true first second s = some (decide (s.m_agc_cur = 0), s1) ∧
      s1.m_agc_cur = s.m_agc_cur - 1 := by
  have hrow : ∃ e, m_agc_lst[s.m_agc_cur]? = some e ∧
      (0 < s.m_agc_cur → 4990 ≤ e.mincnt ∧ (e.maxcnt = 0 ∨ 4990 ≤ e.maxcnt)) ∧
      (s.m_agc_cur = 0 → e.mincnt = 0 ∧ 4990 ≤ e.maxcnt) := by
    generalize s.m_agc_cur = i at hi
    interval_cases i <;> exact ⟨_, rfl, by decide, by decide⟩
  obtain ⟨e, he, hhigh, hbot⟩ := hrow
  by_cases h0 : s.m_agc_cur = 0
  · obtain ⟨hmin, hmax⟩ := hbot h0
    have hup : ¬ TooBright e first.c := fun h => by
      have := h.2
      omega
    have hdn : ¬ TooDim e first.c := fun h => h.1 hmin
    refine ⟨firstRead true first s, ?_, ?_⟩
    · rw [autorange_keep true first second he hup hdn]
      simp [h0]
    · rw [(firstRead_facts true first s).1, h0]
  · have hpos : 0 < s.m_agc_cur := by omega
    obtain ⟨hmin, hmax⟩ := hhigh hpos
    have hup : ¬ TooBright e first.c := fun h => by
      have h1 := h.1
      have h2 := h.2
      omega
    have hj : Moves e first.c s.m_agc_cur (u16 ((s.m_agc_cur : Int) - 1)) :=
      Or.inr ⟨hup, ⟨by omega, by omega⟩, rfl⟩
    obtain ⟨e', s3, -, hauto, hcur, -⟩ :=
      autorange_move_some true first second (by decide) he _ hj
    refine ⟨s3, ?_, ?_⟩
    · rw [hauto]
      simp [h0]
    · rw [hcur]
      unfold u16
      omega

/-- For a register value `a ≤ 255`, the value cached by `setGainTime` as
`m_atime_ms` is the integer part of `(256 - a) * 12 / 5`. -/
theorem scale_2_4_eq (a : Nat) (ha : a ≤ 255) :
    scale_2_4 (256 - ((u16 (a : Int) : Nat) : Int)) = (256 - a) * 12 / 5 := by
  rw [u16_of_lt a (by omega)]
  unfold scale_2_4 u16
  rw [Int.tdiv_eq_ediv (by omega) (by omega)]
  have h3 : 0 ≤ (256 - (a : Int)) * 12 / 5 := by omega
  have h4 : (256 - (a : Int)) * 12 / 5 < 65536 := by omega
  rw [Int.emod_eq_of_lt h3 h4]
  omega

/-- What `setGainTime` leaves, at a row whose register value fits in 8 bits. -/
theorem setGainTime_cached {agc : List tcs_agc} {s : TCS34725} {e : tcs_agc}
    (he : agc[s.m_agc_cur]? = some e) (ha : e.atime ≤ 255) :
    ∃ s', setGainTime agc s = some s' ∧ s'.m_agc_cur = s.m_agc_cur ∧ Cached e s' ∧
      s'.trace = s.trace ++ [Call.setGain e.again, Call.setIntegrationTime e.atime] ∧
      s'.isAvailable = s.isAvailable ∧
      s'.m_count_per_lux = ((s'.m_atime_ms : ℚ) * (s'.m_againx : ℚ)) / (1 * 310) := by
  unfold setGainTime
  rw [he]
  refine ⟨_, rfl, rfl, ⟨?_, ?_, rfl⟩, rfl, rfl, ?_⟩
  · exact u16_of_lt e.atime (by omega)
  · exact scale_2_4_eq e.atime ha
  · simp only [Nat.cast_mul]

theorem cachedAt_of_frame {agc : List tcs_agc} {s t : TCS34725} (h : CachedAt agc s)
    (hcur : t.m_agc_cur = s.m_agc_cur) (h1 : t.m_atime = s.m_atime)
    (h2 : t.m_atime_ms = s.m_atime_ms) (h3 : t.m_againx = s.m_againx) : CachedAt agc t := by
  obtain ⟨e, he, c1, c2, c3⟩ := h
  exact ⟨e, by rw [hcur]; exact he, by rw [h1]; exact c1, by rw [h2]; exact c2,
    by rw [h3]; exact c3⟩

/-- Every call of `autorange` returns and keeps the cached constants in step
with the index, in a table with the sentinels whose register values fit in 8
bits. -/
theorem autorange_cachedAt {agc : List tcs_agc} (hs : sentinels agc = true)
    (hrows : ∀ e ∈ agc, e.atime ≤ 255) (noDelay : Bool) (first second : RGBC)
    (s : TCS34725) (h : CachedAt agc s) :
    ∃ ok s', autorange agc noDelay first second s = some (ok, s') ∧ CachedAt agc s' ∧
      (noDelay = false → ok = true) := by
  obtain ⟨e, he, hc⟩ := h
  rcases moves_or_keep e first.c s.m_agc_cur with ⟨j, hj⟩ | ⟨hup, hdn⟩
  · obtain ⟨e', s3, he', hauto, hcur, -, h1, h2, h3, -⟩ :=
      autorange_move_some noDelay first second hs he j hj
    have ha : e'.atime ≤ 255 := hrows e' (List.getElem?_mem he')
    have hc3 : CachedAt agc s3 := by
      refine ⟨e', by rw [hcur]; exact he', ?_, ?_, h3⟩
      · rw [h1]; exact u16_of_lt e'.atime (by omega)
      · rw [h2]; exact scale_2_4_eq e'.atime ha
    cases noDelay
    · refine ⟨true, getRawData second (delay (s3.m_atime_ms * 2) s3), by rw [hauto]; rfl,
        cachedAt_of_frame hc3 rfl rfl rfl rfl, fun _ => rfl⟩
    · exact ⟨false, s3, by rw [hauto]; rfl, hc3, fun h => absurd h (by decide)⟩
  · obtain ⟨f1, -, f3, f4, f5, -⟩ := firstRead_facts noDelay first s
    exact ⟨true, firstRead noDelay first s, autorange_keep noDelay first second he hup hdn,
      cachedAt_of_frame ⟨e, he, hc⟩ f1 f3 f4 f5, fun _ => rfl⟩

/-- Every call of `updateData` returns and keeps the cached constants in step
with the index. -/
theorem updateData_cachedAt {agc : List tcs_agc} (hs : sentinels agc = true)
    (hrows : ∀ e ∈ agc, e.atime ≤ 255) (noDelay : Bool) (first second : RGBC)
    (s : TCS34725) (h : CachedAt agc s) :
    ∃ ok s', updateData agc noDelay first second s = some (ok, s') ∧ CachedAt agc s' := by
  obtain ⟨ok, s1, hauto, hc1, -⟩ := autorange_cachedAt hs hrows noDelay first second s h
  cases ok
  · exact ⟨false, s1, updateData_reject hauto, hc1⟩
  · obtain ⟨s2, hupd, -, -, -, h1, h2, h3, -⟩ := updateData_accept hauto
    have h4 : s2.m_againx = s1.m_againx := by
      rw [updateData_eq, hauto] at hupd
      dsimp only at hupd
      cases hsat : (satStage s1).isSaturated
      · rw [hsat] at hupd
        simp at hupd
        rw [← hupd]
        rfl
      · rw [hsat] at hupd
        simp at hupd
        rw [← hupd]
        rfl
    exact ⟨_, s2, hupd, cachedAt_of_frame hc1 h3 h1 h2 h4⟩

/-- Every sequence of `autorange` / `updateData` calls returns and keeps the
cached constants in step with the index. -/
theorem run_cachedAt {agc : List tcs_agc} (hs : sentinels agc = true)
    (hrows : ∀ e ∈ agc, e.atime ≤ 255) (ops : List Op) (s : TCS34725)
    (h : CachedAt agc s) : ∃ s', run agc ops s = some s' ∧ CachedAt agc s' := by
  induction ops generalizing s with
  | nil => exact ⟨s, rfl, h⟩
  | cons op rest ih =>
    cases op with
    | autorange noDelay first second =>
      obtain ⟨ok, s1, h1, hc1, -⟩ := autorange_cachedAt hs hrows noDelay first second s h
      obtain ⟨s', h2, hc2⟩ := ih s1 hc1
      exact ⟨s', by simp only [run, h1]; exact h2, hc2⟩
    | updateData noDelay first second =>
      obtain ⟨ok, s1, h1, hc1⟩ := updateData_cachedAt hs hrows noDelay first second s h
      obtain ⟨s', h2, hc2⟩ := ih s1 hc1
      exact ⟨s', by simp only [run, h1]; exact h2, hc2⟩

/-- A successful `begin()` on the constructed object leaves the cached
constants of row 3 of the table of the source. -/
theorem begin_cachedAt (mem : TCS34725) :
    ∃ s0, begin m_agc_lst true (ctor mem) = some (true, s0) ∧ CachedAt m_agc_lst s0 ∧
      s0.m_agc_cur = 3 ∧ s0.isAvailable = true ∧
      s0.trace = [Call.construct 192 .TCS34725_GAIN_4X, Call.begin,
        Call.setGain .TCS34725_GAIN_4X, Call.setIntegrationTime 192] := by
  have he : m_agc_lst[(ctor mem).m_agc_cur]? = some ⟨.TCS34725_GAIN_4X, 192, 15740, 63000⟩ :=
    rfl
  obtain ⟨s', hset, hcur, hc, htr, hav, -⟩ :=
    @setGainTime_cached m_agc_lst
      { ctor mem with
        trace := (ctor mem).trace ++ [Call.construct 192 .TCS34725_GAIN_4X, Call.begin],
        isAvailable := true }
      ⟨.TCS34725_GAIN_4X, 192, 15740, 63000⟩ he (by decide)
  refine ⟨s', ?_, ⟨_, by rw [hcur]; exact he, hc⟩, hcur, hav, htr⟩
  unfold begin
  simp only [he, if_true]
  rw [hset]

/-- On the table of the source the cached integration time is 614 ms (register
0) or 153 ms (register 192). -/
theorem cachedAt_default {s : TCS34725} (h : CachedAt m_agc_lst s) :
    (s.m_atime = 0 ∧ s.m_atime_ms = 614) ∨ (s.m_atime = 192 ∧ s.m_atime_ms = 153) := by
  obtain ⟨e, he, h1, h2, -⟩ := h
  have hmem : e ∈ m_agc_lst := List.getElem?_mem he
  have hall : ∀ r ∈ m_agc_lst, r.atime = 0 ∨ r.atime = 192 := by decide
  have hrow : e.atime = 0 ∨ e.atime = 192 := hall e hmem
  rcases hrow with h0 | h0
  · left
    rw [h1, h2, h0]
    exact ⟨rfl, rfl⟩
  · right
    rw [h1, h2, h0]
    exact ⟨rfl, rfl⟩

theorem satStage_saturation_lt (s1 : TCS34725) : (satStage s1).saturation < 65536 := by
  show (if (256 : Int) - s1.m_atime > 63 then u16 65535
    else u16 (1024 * (256 - (s1.m_atime : Int)))) < 65536
  unfold u16
  split_ifs <;> omega

/-- The adjusted ceiling stored by the saturation step, in natural numbers: the
subtraction `saturation - saturation / 4` never wraps. -/
theorem satStage_saturation75_nat (s1 : TCS34725) :
    (satStage s1).saturation75 =
      (if s1.m_atime_ms < 150 then
        (satStage s1).saturation - (satStage s1).saturation / 4
       else (satStage s1).saturation) := by
  have hlt := satStage_saturation_lt s1
  rw [satStage_saturation75]
  unfold u16
  split_ifs <;> omega

/-! Claims -/

/-- C1. Index bounds invariant: in every table whose first row has `mincnt = 0`
and whose last row has `maxcnt = 0`, from every index inside the table, every
sequence of `autorange` calls (any samples, any `noDelay` per call) runs to
completion and leaves the index inside the table. -/
theorem autorange_index_in_bounds (agc : List tcs_agc) (hs : sentinels agc = true)
    (calls : List (Bool × RGBC × RGBC)) (s : TCS34725) (hi : s.m_agc_cur < agc.length) :
    ∃ s', autorangeRun agc calls s = some s' ∧ s'.m_agc_cur < agc.length := by
  induction calls generalizing s with
  | nil => exact ⟨s, rfl, hi⟩
  | cons call rest ih =>
    obtain ⟨noDelay, first, second⟩ := call
    obtain ⟨ok, s1, h1, hi1⟩ := autorange_in_range hs noDelay first second s hi
    obtain ⟨s', h2, hi2⟩ := ih s1 hi1
    refine ⟨s', ?_, hi2⟩
    simp only [autorangeRun, h1]
    exact h2

/-- C1, at the table of the source: from the constructed object, a run of five
calls with very bright and very dark samples ends inside `[0, 4]`. -/
theorem autorange_index_in_bounds_witness :
    ∃ s', autorangeRun m_agc_lst
        [(true, ⟨0, 0, 0, 65535⟩, ⟨0, 0, 0, 0⟩), (false, ⟨0, 0, 0, 65535⟩, ⟨0, 0, 0, 65535⟩),
         (true, ⟨0, 0, 0, 0⟩, ⟨0, 0, 0, 0⟩), (false, ⟨0, 0, 0, 0⟩, ⟨0, 0, 0, 0⟩),
         (true, ⟨0, 0, 0, 0⟩, ⟨0, 0, 0, 0⟩)] (ctor mem0) = some s' ∧
      s'.m_agc_cur < m_agc_lst.length :=
  autorange_index_in_bounds m_agc_lst (by decide) _ (ctor mem0) (by decide)

/-- C2. Autorange decision rule: in a table with the sentinels (of at most
65536 rows, the range of the `uint16_t` index), a call of `autorange` at index
`i` with row `e = agc[i]` and first clear reading `c` returns, and the new
index is `i + 1` if `e.maxcnt ≠ 0` and `c > e.maxcnt`; otherwise `i - 1` if
`e.mincnt ≠ 0` and `c < e.mincnt`; otherwise `i`, with result `true`. The "too
bright" test is taken first, and the index changes by at most 1. -/
theorem autorange_decision_rule (agc : List tcs_agc) (hs : sentinels agc = true)
    (hlen : agc.length ≤ 65536) (noDelay : Bool) (first second : RGBC) (s : TCS34725)
    (e : tcs_agc) (he : agc[s.m_agc_cur]? = some e) :
    ∃ ok s', autorange agc noDelay first second s = some (ok, s') ∧
      (TooBright e first.c → s'.m_agc_cur = s.m_agc_cur + 1) ∧
      (¬ TooBright e first.c → TooDim e first.c →
        s'.m_agc_cur + 1 = s.m_agc_cur ∧ s'.m_agc_cur = s.m_agc_cur - 1) ∧
      (¬ TooBright e first.c → ¬ TooDim e first.c →
        s'.m_agc_cur = s.m_agc_cur ∧ ok = true) ∧
      s'.m_agc_cur ≤ s.m_agc_cur + 1 ∧ s.m_agc_cur ≤ s'.m_agc_cur + 1 := by
  obtain ⟨hi, -⟩ := List.getElem?_eq_some.mp he
  rcases moves_or_keep e first.c s.m_agc_cur with ⟨j, hj⟩ | ⟨hup, hdn⟩
  · obtain ⟨e', s3, -, hauto, hcur, -⟩ := autorange_move_some noDelay first second hs he j hj
    have hfin : ∃ ok s', autorange agc noDelay first second s = some (ok, s') ∧
        s'.m_agc_cur = j := by
      cases noDelay
      · exact ⟨true, getRawData second (delay (s3.m_atime_ms * 2) s3), by rw [hauto]; rfl, hcur⟩
      · exact ⟨false, s3, by rw [hauto]; rfl, hcur⟩
    obtain ⟨ok, s', hres, hidx⟩ := hfin
    refine ⟨ok, s', hres, ?_⟩
    rcases hj with ⟨hup, hjv⟩ | ⟨hup, hdn, hjv⟩
    · have hlt := succ_lt_of_maxcnt hs he hup.1
      have hval : j = s.m_agc_cur + 1 := by
        rw [hjv]
        have := u16_of_lt (s.m_agc_cur + 1) (by omega)
        push_cast at this
        exact this
      refine ⟨fun _ => by omega, fun h => absurd hup h, fun h => absurd hup h, ?_, ?_⟩ <;> omega
    · have hpos := pos_of_mincnt hs he hdn.1
      have hval : j + 1 = s.m_agc_cur := by
        rw [hjv]
        unfold u16
        omega
      refine ⟨fun h => absurd h hup, fun _ _ => ⟨by omega, by omega⟩,
        fun _ h => absurd hdn h, ?_, ?_⟩ <;> omega
  · refine ⟨true, _, autorange_keep noDelay first second he hup hdn, ?_⟩
    rw [(firstRead_facts noDelay first s).1]
    exact ⟨fun h => absurd h hup, fun _ h => absurd h hdn, fun _ _ => ⟨rfl, rfl⟩,
      by omega, by omega⟩

/-- C2 at the table of the source: the constructed object (index 3, row
`maxcnt = 63000`) with a first clear reading of 64000. -/
theorem autorange_decision_rule_witness :
    ∃ ok s', autorange m_agc_lst true ⟨0, 0, 0, 64000⟩ ⟨0, 0, 0, 0⟩ (ctor mem0) = some (ok, s') ∧
      (TooBright ⟨.TCS34725_GAIN_4X, 192, 15740, 63000⟩ 64000 → s'.m_agc_cur = 3 + 1) ∧
      (¬ TooBright ⟨.TCS34725_GAIN_4X, 192, 15740, 63000⟩ 64000 →
        TooDim ⟨.TCS34725_GAIN_4X, 192, 15740, 63000⟩ 64000 →
        s'.m_agc_cur + 1 = 3 ∧ s'.m_agc_cur = 3 - 1) ∧
      (¬ TooBright ⟨.TCS34725_GAIN_4X, 192, 15740, 63000⟩ 64000 →
        ¬ TooDim ⟨.TCS34725_GAIN_4X, 192, 15740, 63000⟩ 64000 →
        s'.m_agc_cur = 3 ∧ ok = true) ∧
      s'.m_agc_cur ≤ 3 + 1 ∧ 3 ≤ s'.m_agc_cur + 1 :=
  autorange_decision_rule m_agc_lst (by decide) (by decide) true ⟨0, 0, 0, 64000⟩ ⟨0, 0, 0, 0⟩
    (ctor mem0) ⟨.TCS34725_GAIN_4X, 192, 15740, 63000⟩ (by decide)

/-- C4. Polled mode always accepts: in a table with the sentinels, from every
index inside the table and for every pair of samples, `autorange(false)` returns
`true`. When the first reading moves the operating point, the raw fields on
return hold the second sample, whatever it is; in particular the second sample
is not compared with the thresholds of the new row: at the table of the source,
from index 0 with both clear readings 65535, the call returns `true` at index 1
with `c_raw` above the non-zero `maxcnt` of row 1. -/
theorem autorange_polled_accepts (agc : List tcs_agc) (hs : sentinels agc = true)
    (first second : RGBC) (s : TCS34725) (hi : s.m_agc_cur < agc.length) :
    (∃ s', autorange agc false first second s = some (true, s') ∧
      (∀ e, agc[s.m_agc_cur]? = some e → TooBright e first.c ∨ TooDim e first.c →
        s'.r_raw = second.r ∧ s'.g_raw = second.g ∧ s'.b_raw = second.b ∧
          s'.c_raw = second.c) ∧
      (∀ e, agc[s.m_agc_cur]? = some e → ¬ TooBright e first.c → ¬ TooDim e first.c →
        s'.r_raw = first.r ∧ s'.g_raw = first.g ∧ s'.b_raw = first.b ∧
          s'.c_raw = first.c)) ∧
    (∃ t e', autorange m_agc_lst false ⟨0, 0, 0, 65535⟩ ⟨0, 0, 0, 65535⟩
        { ctor mem0 with m_agc_cur := 0 } = some (true, t) ∧
      t.m_agc_cur = 1 ∧ m_agc_lst[t.m_agc_cur]? = some e' ∧ TooBright e' t.c_raw) := by
  constructor
  · have he : agc[s.m_agc_cur]? = some agc[s.m_agc_cur] := List.getElem?_eq_getElem hi
    rcases moves_or_keep agc[s.m_agc_cur] first.c s.m_agc_cur with ⟨j, hj⟩ | ⟨hup, hdn⟩
    · obtain ⟨e', s3, -, hauto, -⟩ := autorange_move_some false first second hs he j hj
      refine ⟨getRawData second (delay (s3.m_atime_ms * 2) s3), by rw [hauto]; rfl, ?_, ?_⟩
      · intro _ _ _
        exact ⟨rfl, rfl, rfl, rfl⟩
      · intro e0 he0 hup hdn
        rw [he] at he0
        cases he0
        rcases hj with ⟨h, -⟩ | ⟨-, h, -⟩
        · exact absurd h hup
        · exact absurd h hdn
    · refine ⟨_, autorange_keep false first second he hup hdn, ?_, ?_⟩
      · intro e0 he0 htrig
        rw [he] at he0
        cases he0
        rcases htrig with h | h
        · exact absurd h hup
        · exact absurd h hdn
      · intro _ _ _ _
        exact ⟨rfl, rfl, rfl, rfl⟩
  · exact ⟨_, ⟨.TCS34725_GAIN_60X, 192, 4990, 63000⟩, rfl, rfl, rfl, by decide⟩

/-- C4 at the table of the source: constructed object (index 3), both clear
readings 65535. -/
theorem autorange_polled_accepts_witness :
    (∃ s', autorange m_agc_lst false ⟨0, 0, 0, 65535⟩ ⟨9, 8, 7, 65535⟩ (ctor mem0) =
        some (true, s') ∧
      (∀ e, m_agc_lst[(ctor mem0).m_agc_cur]? = some e →
        TooBright e 65535 ∨ TooDim e 65535 →
        s'.r_raw = 9 ∧ s'.g_raw = 8 ∧ s'.b_raw = 7 ∧ s'.c_raw = 65535) ∧
      (∀ e, m_agc_lst[(ctor mem0).m_agc_cur]? = some e →
        ¬ TooBright e 65535 → ¬ TooDim e 65535 →
        s'.r_raw = 0 ∧ s'.g_raw = 0 ∧ s'.b_raw = 0 ∧ s'.c_raw = 65535)) ∧
    (∃ t e', autorange m_agc_lst false ⟨0, 0, 0, 65535⟩ ⟨0, 0, 0, 65535⟩
        { ctor mem0 with m_agc_cur := 0 } = some (true, t) ∧
      t.m_agc_cur = 1 ∧ m_agc_lst[t.m_agc_cur]? = some e' ∧ TooBright e' t.c_raw) :=
  autorange_polled_accepts m_agc_lst (by decide) ⟨0, 0, 0, 65535⟩ ⟨9, 8, 7, 65535⟩ (ctor mem0)
    (by decide)

/-- C5. End-to-end polled cycle: from the constructed object (index 3: gain 4x,
integration-time register 192) after a successful `begin()`, a polled
`autorange(false)` / `updateData(false)` whose first clear reading is 64000
(above 63000, the `maxcnt` of row 3) returns `true` with the index equal to 4
(gain 1x, register 192); the calls issued are one blocking read, one `setGain`
and one `setIntegrationTime` with the values of row 4, one `delay` of twice the
cached integration time in ms (2 x 153), and a second blocking read. -/
theorem polled_cycle_from_default (mem : TCS34725) (first second : RGBC)
    (h : first.c = 64000) :
    ∃ s0 s1 s2, begin m_agc_lst true (ctor mem) = some (true, s0) ∧
      s0.m_agc_cur = 3 ∧
      m_agc_lst[s0.m_agc_cur]? = some ⟨.TCS34725_GAIN_4X, 192, 15740, 63000⟩ ∧
      s0.trace = [Call.construct 192 .TCS34725_GAIN_4X, Call.begin,
        Call.setGain .TCS34725_GAIN_4X, Call.setIntegrationTime 192] ∧
      autorange m_agc_lst false first second s0 = some (true, s1) ∧
      updateData m_agc_lst false first second s0 = some (true, s2) ∧
      s1.m_agc_cur = 4 ∧ s2.m_agc_cur = 4 ∧
      m_agc_lst[s1.m_agc_cur]? = some ⟨.TCS34725_GAIN_1X, 192, 15740, 0⟩ ∧
      s1.m_atime_ms = 153 ∧
      s1.trace = s0.trace ++
        [Call.getRawData, Call.setGain .TCS34725_GAIN_1X, Call.setIntegrationTime 192,
          Call.delay (2 * s1.m_atime_ms), Call.getRawData] ∧
      s2.trace = s1.trace := by
  obtain ⟨r, g, b, c⟩ := first
  simp only at h
  subst h
  exact ⟨_, _, _, rfl, rfl, rfl, rfl, rfl, rfl, rfl, rfl, rfl, rfl, rfl, rfl⟩

/-- C5 with concrete samples. -/
theorem polled_cycle_from_default_witness :
    ∃ s0 s1 s2, begin m_agc_lst true (ctor mem0) = some (true, s0) ∧
      s0.m_agc_cur = 3 ∧
      m_agc_lst[s0.m_agc_cur]? = some ⟨.TCS34725_GAIN_4X, 192, 15740, 63000⟩ ∧
      s0.trace = [Call.construct 192 .TCS34725_GAIN_4X, Call.begin,
        Call.setGain .TCS34725_GAIN_4X, Call.setIntegrationTime 192] ∧
      autorange m_agc_lst false ⟨20000, 30000, 14000, 64000⟩ ⟨5000, 7500, 3500, 16000⟩ s0 =
        some (true, s1) ∧
      updateData m_agc_lst false ⟨20000, 30000, 14000, 64000⟩ ⟨5000, 7500, 3500, 16000⟩ s0 =
        some (true, s2) ∧
      s1.m_agc_cur = 4 ∧ s2.m_agc_cur = 4 ∧
      m_agc_lst[s1.m_agc_cur]? = some ⟨.TCS34725_GAIN_1X, 192, 15740, 0⟩ ∧
      s1.m_atime_ms = 153 ∧
      s1.trace = s0.trace ++
        [Call.getRawData, Call.setGain .TCS34725_GAIN_1X, Call.setIntegrationTime 192,
          Call.delay (2 * s1.m_atime_ms), Call.getRawData] ∧
      s2.trace = s1.trace :=
  polled_cycle_from_default mem0 ⟨20000, 30000, 14000, 64000⟩ ⟨5000, 7500, 3500, 16000⟩ rfl

/-- C6. Validity of a measurement cycle: in a table with the sentinels, from
every index inside the table, `autorange` and `updateData` both return, and
`updateData` returns `true` if and only if `autorange` returned `true` and not
(`m_atime_ms < 150` and `c_raw > saturation75`); whenever `autorange` accepted,
`isSaturated` after the call equals (`m_atime_ms < 150` and
`c_raw > saturation75`). Here `m_atime_ms` and `c_raw` are those left by
`autorange`, and `saturation75` is the adjusted ceiling computed from them:
`saturation` is 65535 when `256 - m_atime > 63` and `1024 * (256 - m_atime)`
(stored in 16 bits) otherwise, and `saturation75` is
`saturation - saturation / 4` when `m_atime_ms < 150` and `saturation`
otherwise. When `autorange` did not accept, `updateData` leaves the object as
`autorange` left it. -/
theorem updateData_valid_iff (agc : List tcs_agc) (hs : sentinels agc = true)
    (noDelay : Bool) (first second : RGBC) (s : TCS34725) (hi : s.m_agc_cur < agc.length) :
    ∃ ok s1 res s2, autorange agc noDelay first second s = some (ok, s1) ∧
      updateData agc noDelay first second s = some (res, s2) ∧
      s2.m_atime_ms = s1.m_atime_ms ∧ s2.c_raw = s1.c_raw ∧
      (res = true ↔
        (ok = true ∧ ¬ (s2.m_atime_ms < 150 ∧ s2.c_raw > s2.saturation75))) ∧
      (ok = true →
        s2.isSaturated = decide (s2.m_atime_ms < 150 ∧ s2.c_raw > s2.saturation75)) ∧
      (ok = true →
        s2.saturation =
            (if (256 : Int) - s1.m_atime > 63 then 65535
             else u16 (1024 * (256 - (s1.m_atime : Int)))) ∧
          s2.saturation75 =
            (if s1.m_atime_ms < 150 then s2.saturation - s2.saturation / 4
             else s2.saturation)) ∧
      (ok = true → s1.m_atime ≤ 255 →
        s2.saturation = (if 256 - s1.m_atime > 63 then 65535 else 1024 * (256 - s1.m_atime))) ∧
      (ok = false → s2 = s1) := by
  obtain ⟨ok, s1, hauto, -⟩ := autorange_in_range hs noDelay first second s hi
  cases ok
  · refine ⟨false, s1, false, s1, hauto, updateData_reject hauto, rfl, rfl, ?_, ?_, ?_, ?_,
      fun _ => rfl⟩
    · simp
    · intro h
      exact absurd h (by decide)
    · intro h
      exact absurd h (by decide)
    · intro h
      exact absurd h (by decide)
  · obtain ⟨s2, hupd, hceil, h75, hsat, -, hms, -, -, -, -, -, hc, -⟩ := updateData_accept hauto
    refine ⟨true, s1, _, s2, hauto, hupd, hms, hc, ?_, ?_, ?_, ?_, ?_⟩
    · rw [hms, hc, h75, satStage_isSaturated]
      simp only [Bool.not_eq_true', decide_eq_false_iff_not, true_and]
    · intro _
      rw [hsat, hms, hc, h75, satStage_isSaturated]
    · intro _
      refine ⟨by rw [hceil]; rfl, ?_⟩
      rw [h75, hceil]
      exact satStage_saturation75_nat s1
    · intro _ ha
      rw [hceil]
      exact satStage_saturation s1 ha
    · intro h
      exact absurd h (by decide)

/-- C6 where the saturation test fires: table with register 214 on the 154 ms
rows (`m_atime_ms = 100`, ceiling 43008, adjusted ceiling 32256), object after
`begin()`, non-blocking. A clear reading of 40000 is accepted by `autorange`
but `updateData` returns `false` with `isSaturated = true`; a clear reading of
30000 gives `true` with `isSaturated = false`. -/
theorem updateData_valid_iff_witness :
    (∃ ok s1 res s2,
      autorange (agcWith 214) true ⟨9000, 12000, 8000, 40000⟩ ⟨0, 0, 0, 0⟩
        (startAt (agcWith 214)) = some (ok, s1) ∧
      updateData (agcWith 214) true ⟨9000, 12000, 8000, 40000⟩ ⟨0, 0, 0, 0⟩
        (startAt (agcWith 214)) = some (res, s2) ∧
      s2.m_atime_ms = s1.m_atime_ms ∧ s2.c_raw = s1.c_raw ∧
      (res = true ↔
        (ok = true ∧ ¬ (s2.m_atime_ms < 150 ∧ s2.c_raw > s2.saturation75))) ∧
      (ok = true →
        s2.isSaturated = decide (s2.m_atime_ms < 150 ∧ s2.c_raw > s2.saturation75)) ∧
      (ok = true →
        s2.saturation =
            (if (256 : Int) - s1.m_atime > 63 then 65535
             else u16 (1024 * (256 - (s1.m_atime : Int)))) ∧
          s2.saturation75 =
            (if s1.m_atime_ms < 150 then s2.saturation - s2.saturation / 4
             else s2.saturation)) ∧
      (ok = true → s1.m_atime ≤ 255 →
        s2.saturation = (if 256 - s1.m_atime > 63 then 65535 else 1024 * (256 - s1.m_atime))) ∧
      (ok = false → s2 = s1)) ∧
    (∃ s1 s2,
      autorange (agcWith 214) true ⟨9000, 12000, 8000, 40000⟩ ⟨0, 0, 0, 0⟩
        (startAt (agcWith 214)) = some (true, s1) ∧
      updateData (agcWith 214) true ⟨9000, 12000, 8000, 40000⟩ ⟨0, 0, 0, 0⟩
        (startAt (agcWith 214)) = some (false, s2) ∧
      s2.m_atime_ms = 100 ∧ s2.c_raw = 40000 ∧ s2.saturation = 43008 ∧
      s2.saturation75 = 32256 ∧ s2.isSaturated = true) ∧
    (∃ s2,
      updateData (agcWith 214) true ⟨9000, 12000, 8000, 30000⟩ ⟨0, 0, 0, 0⟩
        (startAt (agcWith 214)) = some (true, s2) ∧
      s2.m_atime_ms = 100 ∧ s2.c_raw = 30000 ∧ s2.saturation75 = 32256 ∧
      s2.isSaturated = false) :=
  ⟨updateData_valid_iff (agcWith 214) (by decide) true ⟨9000, 12000, 8000, 40000⟩ ⟨0, 0, 0, 0⟩
      (startAt (agcWith 214)) (by decide),
    ⟨_, _, rfl, rfl, by decide, by decide, by decide, by decide, by decide⟩,
    ⟨_, rfl, by decide, by decide, by decide, by decide⟩⟩

/-- C7. Saturation ceiling: whenever `autorange` accepted and the cached
register value `m_atime` is `a` with `a ≤ 255`, `updateData` returns and the
`saturation` it stores is 65535 when the step count `256 - a` exceeds 63 and
`1024 * (256 - a)` otherwise; that value is at most 65535, so the store into
the 16-bit field does not wrap. -/
theorem saturation_ceiling (agc : List tcs_agc) (noDelay : Bool) (first second : RGBC)
    (s s1 : TCS34725) (a : Nat) (ha : a ≤ 255)
    (hauto : autorange agc noDelay first second s = some (true, s1))
    (hs1 : s1.m_atime = a) :
    ∃ res s2, updateData agc noDelay first second s = some (res, s2) ∧
      s2.saturation = (if 256 - a > 63 then 65535 else 1024 * (256 - a)) ∧
      s2.saturation ≤ 65535 := by
  obtain ⟨s2, hupd, hsat, -⟩ := updateData_accept hauto
  have hval := satStage_saturation s1 (by omega)
  rw [hs1] at hval
  refine ⟨_, s2, hupd, by rw [hsat, hval], ?_⟩
  rw [hsat, hval]
  split_ifs <;> omega

/-- C7 at step counts 64 (register 192, the table of the source) and 10
(register 246): the ceilings are 65535 and 10240. -/
theorem saturation_ceiling_witness :
    (∃ res s2, updateData m_agc_lst true ⟨9000, 12000, 8000, 30000⟩ ⟨0, 0, 0, 0⟩
        (startAt m_agc_lst) = some (res, s2) ∧
      s2.saturation = (if 256 - 192 > 63 then 65535 else 1024 * (256 - 192)) ∧
      s2.saturation ≤ 65535) ∧
    (∃ res s2, updateData (agcWith 246) true ⟨9000, 12000, 8000, 30000⟩ ⟨0, 0, 0, 0⟩
        (startAt (agcWith 246)) = some (res, s2) ∧
      s2.saturation = (if 256 - 246 > 63 then 65535 else 1024 * (256 - 246)) ∧
      s2.saturation ≤ 65535) ∧
    (if 256 - 192 > 63 then 65535 else 1024 * (256 - 192)) = 65535 ∧
    (if 256 - 246 > 63 then 65535 else 1024 * (256 - 246)) = 10240 :=
  ⟨saturation_ceiling m_agc_lst true ⟨9000, 12000, 8000, 30000⟩ ⟨0, 0, 0, 0⟩
      (startAt m_agc_lst) _ 192 (by decide) rfl rfl,
    saturation_ceiling (agcWith 246) true ⟨9000, 12000, 8000, 30000⟩ ⟨0, 0, 0, 0⟩
      (startAt (agcWith 246)) _ 246 (by decide) rfl rfl,
    by decide, by decide⟩

/-- C8. Ripple adjustment: whenever `autorange` accepted with cached register
value `a = m_atime ≤ 255`, `updateData` returns and stores the raw ceiling
`saturation` (65535 when `256 - a > 63`, `1024 * (256 - a)` otherwise). When
the cached `m_atime_ms` is the one `setGainTime` computes from `a` and is below
150, the raw ceiling is `1024 * (256 - a)` and the stored `saturation75` is
`saturation - saturation / 4 = 768 * (256 - a)`, exactly 75% of it
(`4 * saturation75 = 3 * saturation`); when the cached `m_atime_ms` is at least
150, `saturation75` equals `saturation`. Register 214 gives `m_atime_ms = 100`. -/
theorem ripple_adjustment (agc : List tcs_agc) (noDelay : Bool) (first second : RGBC)
    (s s1 : TCS34725) (ha : s1.m_atime ≤ 255)
    (hauto : autorange agc noDelay first second s = some (true, s1))
    (hcase : (s1.m_atime_ms = scale_2_4 (256 - (s1.m_atime : Int)) ∧ s1.m_atime_ms < 150) ∨
      150 ≤ s1.m_atime_ms) :
    ∃ res s2, updateData agc noDelay first second s = some (res, s2) ∧
      s2.m_atime_ms = s1.m_atime_ms ∧
      s2.saturation = (if 256 - s1.m_atime > 63 then 65535 else 1024 * (256 - s1.m_atime)) ∧
      (s2.m_atime_ms < 150 →
        s2.saturation = 1024 * (256 - s1.m_atime) ∧
          s2.saturation75 = 768 * (256 - s1.m_atime) ∧
          s2.saturation75 = s2.saturation - s2.saturation / 4 ∧
          4 * s2.saturation75 = 3 * s2.saturation) ∧
      (150 ≤ s2.m_atime_ms → s2.saturation75 = s2.saturation) ∧
      scale_2_4 (256 - 214) = 100 := by
  obtain ⟨s2, hupd, hsat, h75, -, -, hms, -⟩ := updateData_accept hauto
  have hval := satStage_saturation s1 ha
  have h75' := satStage_saturation75_nat s1
  refine ⟨_, s2, hupd, hms, by rw [hsat, hval], ?_, ?_, by decide⟩
  · intro hlt
    rw [hms] at hlt
    rcases hcase with ⟨hcons, -⟩ | hge
    · have hlt' := hlt
      rw [hcons] at hlt'
      have hrange := scale_2_4_lt_150 s1.m_atime ha hlt'
      rw [if_pos hlt] at h75'
      rw [h75, hsat, h75', hval]
      split_ifs <;> omega
    · omega
  · intro hge
    rw [hms] at hge
    rw [h75, hsat, h75', if_neg (by omega)]

/-- C8 at register 214 (table with register 214 on the 154 ms rows, object after
`begin()`): `m_atime_ms = 100`, ceiling 43008, adjusted ceiling 32256; and at an
object of the table of the source whose cached `m_atime_ms` is 200: adjusted
ceiling equal to the ceiling 65535. -/
theorem ripple_adjustment_witness :
    (∃ res s2, updateData (agcWith 214) true ⟨9000, 12000, 8000, 30000⟩ ⟨0, 0, 0, 0⟩
        (startAt (agcWith 214)) = some (res, s2) ∧
      s2.m_atime_ms = 100 ∧
      s2.saturation = (if 256 - 214 > 63 then 65535 else 1024 * (256 - 214)) ∧
      (s2.m_atime_ms < 150 →
        s2.saturation = 1024 * (256 - 214) ∧
          s2.saturation75 = 768 * (256 - 214) ∧
          s2.saturation75 = s2.saturation - s2.saturation / 4 ∧
          4 * s2.saturation75 = 3 * s2.saturation) ∧
      (150 ≤ s2.m_atime_ms → s2.saturation75 = s2.saturation) ∧
      scale_2_4 (256 - 214) = 100) ∧
    (∃ s2, updateData (agcWith 214) true ⟨9000, 12000, 8000, 30000⟩ ⟨0, 0, 0, 0⟩
        (startAt (agcWith 214)) = some (true, s2) ∧
      s2.m_atime = 214 ∧ s2.m_atime_ms = 100 ∧
      s2.saturation = 43008 ∧ s2.saturation75 = 32256 ∧
      4 * s2.saturation75 = 3 * s2.saturation) ∧
    (∃ res s2, updateData m_agc_lst true ⟨9000, 12000, 8000, 30000⟩ ⟨0, 0, 0, 0⟩
        { startAt m_agc_lst with m_atime_ms := 200 } = some (res, s2) ∧
      s2.m_atime_ms = 200 ∧
      s2.saturation = (if 256 - 192 > 63 then 65535 else 1024 * (256 - 192)) ∧
      (s2.m_atime_ms < 150 →
        s2.saturation = 1024 * (256 - 192) ∧
          s2.saturation75 = 768 * (256 - 192) ∧
          s2.saturation75 = s2.saturation - s2.saturation / 4 ∧
          4 * s2.saturation75 = 3 * s2.saturation) ∧
      (150 ≤ s2.m_atime_ms → s2.saturation75 = s2.saturation) ∧
      scale_2_4 (256 - 214) = 100) ∧
    (∃ s2, updateData m_agc_lst true ⟨9000, 12000, 8000, 30000⟩ ⟨0, 0, 0, 0⟩
        { startAt m_agc_lst with m_atime_ms := 200 } = some (true, s2) ∧
      s2.m_atime_ms = 200 ∧ s2.saturation = 65535 ∧ s2.saturation75 = 65535) :=
  ⟨ripple_adjustment (agcWith 214) true ⟨9000, 12000, 8000, 30000⟩ ⟨0, 0, 0, 0⟩
      (startAt (agcWith 214)) _ (by decide) rfl (Or.inl ⟨by decide, by decide⟩),
    ⟨_, rfl, by decide, by decide, by decide, by decide, by decide⟩,
    ripple_adjustment m_agc_lst true ⟨9000, 12000, 8000, 30000⟩ ⟨0, 0, 0, 0⟩
      { startAt m_agc_lst with m_atime_ms := 200 } _ (by decide) rfl (Or.inr (by decide)),
    ⟨_, rfl, by decide, by decide, by decide⟩⟩

/-- C9. The code at r = g = b = 25000, c = 64000 (polled cycle after `begin()`,
both samples equal): the sample is accepted at row 4 and unsaturated, with
r + g + b > c. The statement asks for ir = (r + g + b + c) >> 1 = 69500 and the
comment above the assignment for (r + g + b - c) / 2 = 5500; the 16-bit field
`ir` holds 3964, the low 16 bits of 69500. -/
theorem ir_estimate_overflows :
    ∃ s', updateData m_agc_lst false ⟨25000, 25000, 25000, 64000⟩
        ⟨25000, 25000, 25000, 64000⟩ (startAt m_agc_lst) = some (true, s') ∧
      s'.m_agc_cur = 4 ∧ s'.isSaturated = false ∧
      s'.r_raw = 25000 ∧ s'.g_raw = 25000 ∧ s'.b_raw = 25000 ∧ s'.c_raw = 64000 ∧
      s'.r_raw + s'.g_raw + s'.b_raw > s'.c_raw ∧
      (s'.r_raw + s'.g_raw + s'.b_raw + s'.c_raw) >>> 1 = 69500 ∧
      (s'.r_raw + s'.g_raw + s'.b_raw - s'.c_raw) / 2 = 5500 ∧
      s'.ir = 3964 ∧ s'.ir = 69500 % 65536 ∧
      s'.ir ≠ (s'.r_raw + s'.g_raw + s'.b_raw + s'.c_raw) >>> 1 ∧
      s'.ir ≠ (s'.r_raw + s'.g_raw + s'.b_raw - s'.c_raw) / 2 :=
  ⟨_, rfl, rfl, rfl, rfl, rfl, rfl, rfl, by decide, by decide, by decide, by decide, by decide,
    by decide, by decide⟩

/-- C10. The code at r = g = b = 100, c = 250 (polled cycle after `begin()`):
the sample is accepted and unsaturated with r + g + b > c, and `ir` is set to
275, whereas the formula of the comment above the assignment,
(r + g + b - c) / 2, gives 25. -/
theorem ir_estimate_documented_formula_fails :
    ∃ s', updateData m_agc_lst false ⟨100, 100, 100, 250⟩ ⟨100, 100, 100, 250⟩
        (startAt m_agc_lst) = some (true, s') ∧
      s'.r_raw = 100 ∧ s'.g_raw = 100 ∧ s'.b_raw = 100 ∧ s'.c_raw = 250 ∧
      s'.r_raw + s'.g_raw + s'.b_raw > s'.c_raw ∧
      (s'.r_raw + s'.g_raw + s'.b_raw - s'.c_raw) / 2 = 25 ∧
      s'.ir = 275 ∧
      s'.ir ≠ (s'.r_raw + s'.g_raw + s'.b_raw - s'.c_raw) / 2 :=
  ⟨_, rfl, rfl, rfl, rfl, rfl, by decide, by decide, by decide, by decide⟩

/-- C11. Hysteresis consistency of the table of the source: the sensitivities
`againx * (256 - atime)` are 15360, 3840, 1024, 256, 64, strictly decreasing
along the table, and for every adjacent pair of rows `e = m_agc_lst[i]`,
`e' = m_agc_lst[i + 1]`: `e'.mincnt * sensitivity e ≤ e.maxcnt * sensitivity e'`.
Hence a clear count `c > e.maxcnt` (move `i → i + 1`), rescaled in proportion
to the sensitivities, is at least `e'.mincnt`, and a count `c < e'.mincnt`
(move `i + 1 → i`), rescaled, is at most `e.maxcnt`: the rescaled count does not
trigger the reverse move. The rescaling is stated both cross-multiplied (exact)
and with integer division. -/
theorem hysteresis_consistent (i : Nat) (e e' : tcs_agc)
    (he : m_agc_lst[i]? = some e) (he' : m_agc_lst[i + 1]? = some e') :
    m_agc_lst.map sensitivity = [15360, 3840, 1024, 256, 64] ∧
      sensitivity e' < sensitivity e ∧
      e'.mincnt * sensitivity e ≤ e.maxcnt * sensitivity e' ∧
      (∀ c, c > e.maxcnt →
        e'.mincnt * sensitivity e ≤ c * sensitivity e' ∧
          ¬ TooDim e' (c * sensitivity e' / sensitivity e)) ∧
      (∀ c, c < e'.mincnt →
        c * sensitivity e ≤ e.maxcnt * sensitivity e' ∧
          ¬ TooBright e (c * sensitivity e / sensitivity e')) := by
  have hi : i + 1 < m_agc_lst.length := (List.getElem?_eq_some.mp he').1
  have hi4 : i < 4 := by
    have : m_agc_lst.length = 5 := rfl
    omega
  refine ⟨by decide, ?_⟩
  interval_cases i <;>
    simp [m_agc_lst, TCS34725_INTEGRATIONTIME_614MS, TCS34725_INTEGRATIONTIME_154MS] at he he' <;>
    subst he <;> subst he' <;>
    simp only [sensitivity, againx, TooDim, TooBright] <;>
    refine ⟨by omega, by omega, fun c hc => ⟨by omega, by omega⟩,
      fun c hc => ⟨by omega, by omega⟩⟩

/-- C11 at the pair of rows 3 and 4 (gain 4x and gain 1x at 154 ms). -/
theorem hysteresis_consistent_witness :
    m_agc_lst.map sensitivity = [15360, 3840, 1024, 256, 64] ∧
      sensitivity ⟨.TCS34725_GAIN_1X, 192, 15740, 0⟩ <
        sensitivity ⟨.TCS34725_GAIN_4X, 192, 15740, 63000⟩ ∧
      15740 * sensitivity ⟨.TCS34725_GAIN_4X, 192, 15740, 63000⟩ ≤
        63000 * sensitivity ⟨.TCS34725_GAIN_1X, 192, 15740, 0⟩ ∧
      (∀ c, c > 63000 →
        15740 * sensitivity ⟨.TCS34725_GAIN_4X, 192, 15740, 63000⟩ ≤
            c * sensitivity ⟨.TCS34725_GAIN_1X, 192, 15740, 0⟩ ∧
          ¬ TooDim ⟨.TCS34725_GAIN_1X, 192, 15740, 0⟩
            (c * sensitivity ⟨.TCS34725_GAIN_1X, 192, 15740, 0⟩ /
              sensitivity ⟨.TCS34725_GAIN_4X, 192, 15740, 63000⟩)) ∧
      (∀ c, c < 15740 →
        c * sensitivity ⟨.TCS34725_GAIN_4X, 192, 15740, 63000⟩ ≤
            63000 * sensitivity ⟨.TCS34725_GAIN_1X, 192, 15740, 0⟩ ∧
          ¬ TooBright ⟨.TCS34725_GAIN_4X, 192, 15740, 63000⟩
            (c * sensitivity ⟨.TCS34725_GAIN_4X, 192, 15740, 63000⟩ /
              sensitivity ⟨.TCS34725_GAIN_1X, 192, 15740, 0⟩)) :=
  hysteresis_consistent 3 ⟨.TCS34725_GAIN_4X, 192, 15740, 63000⟩
    ⟨.TCS34725_GAIN_1X, 192, 15740, 0⟩ (by decide) (by decide)

/-- C12. Climb to the brightest point: on the table of the source, from every
index `i ≤ 4`, for every sequence of non-blocking `autorange` calls whose
clear readings are all above 63000, every call returns; after the call number
`k + 1` the index is `min (i + k + 1) 4`, and that call returns `true` exactly
when `4 - i ≤ k`. So the index never decreases, the first `4 - i` calls return
`false` and bring it to 4, and every later call returns `true` with the index
still 4. -/
theorem climb_to_brightest (calls : List (Bool × RGBC × RGBC)) (s : TCS34725)
    (hi : s.m_agc_cur ≤ 4)
    (hall : ∀ call ∈ calls, call.1 = true ∧ 63000 < call.2.1.c) :
    ∃ out, autorangeLog m_agc_lst calls s = some out ∧ out.length = calls.length ∧
      (∀ k b t, out[k]? = some (b, t) →
        t.m_agc_cur = min (s.m_agc_cur + (k + 1)) 4 ∧ (b = true ↔ 4 - s.m_agc_cur ≤ k)) ∧
      (∀ k b t, out[k]? = some (b, t) →
        s.m_agc_cur ≤ t.m_agc_cur ∧
          ∀ b' t', out[k + 1]? = some (b', t') → t.m_agc_cur ≤ t'.m_agc_cur) := by
  have main : ∃ out, autorangeLog m_agc_lst calls s = some out ∧
      out.length = calls.length ∧
      (∀ k b t, out[k]? = some (b, t) →
        t.m_agc_cur = min (s.m_agc_cur + (k + 1)) 4 ∧
          (b = true ↔ 4 - s.m_agc_cur ≤ k)) := by
    induction calls generalizing s with
    | nil => exact ⟨[], rfl, rfl, fun k b t h => by simp at h⟩
    | cons call rest ih =>
      obtain ⟨noDelay, first, second⟩ := call
      obtain ⟨hnd, hc⟩ := hall (noDelay, first, second) (List.mem_cons_self _ _)
      simp only at hnd hc
      subst hnd
      obtain ⟨s1, hstep, hidx⟩ := climb_step first second s hi hc
      have hi1 : s1.m_agc_cur ≤ 4 := by omega
      obtain ⟨out, hout, hlen, hspec⟩ :=
        ih s1 hi1 (fun call hmem => hall call (List.mem_cons_of_mem _ hmem))
      refine ⟨(decide (s.m_agc_cur = 4), s1) :: out, ?_, ?_, ?_⟩
      · simp only [autorangeLog, hstep, hout]
      · simp [hlen]
      · intro k b t hk
        cases k with
        | zero =>
          simp only [List.getElem?_cons_zero, Option.some.injEq, Prod.mk.injEq] at hk
          obtain ⟨hb, ht⟩ := hk
          subst hb ht
          refine ⟨by omega, ?_⟩
          simp only [decide_eq_true_eq]
          omega
        | succ k =>
          simp only [List.getElem?_cons_succ] at hk
          obtain ⟨h1, h2⟩ := hspec k b t hk
          refine ⟨by omega, ?_⟩
          rw [h2]
          omega
  obtain ⟨out, hout, hlen, hspec⟩ := main
  refine ⟨out, hout, hlen, hspec, ?_⟩
  intro k b t hk
  obtain ⟨h1, -⟩ := hspec k b t hk
  refine ⟨by omega, ?_⟩
  intro b' t' hk'
  obtain ⟨h2, -⟩ := hspec (k + 1) b' t' hk'
  omega

/-- C12 from the constructed object (index 3): the first call returns `false`
and reaches index 4, the next two return `true` at index 4. -/
theorem climb_to_brightest_witness :
    ∃ out, autorangeLog m_agc_lst
        [(true, ⟨0, 0, 0, 64000⟩, ⟨0, 0, 0, 0⟩), (true, ⟨0, 0, 0, 65535⟩, ⟨0, 0, 0, 0⟩),
         (true, ⟨0, 0, 0, 63001⟩, ⟨0, 0, 0, 0⟩)] (ctor mem0) = some out ∧
      out.length = 3 ∧
      (∀ k b t, out[k]? = some (b, t) →
        t.m_agc_cur = min ((ctor mem0).m_agc_cur + (k + 1)) 4 ∧
          (b = true ↔ 4 - (ctor mem0).m_agc_cur ≤ k)) ∧
      (∀ k b t, out[k]? = some (b, t) →
        (ctor mem0).m_agc_cur ≤ t.m_agc_cur ∧
          ∀ b' t', out[k + 1]? = some (b', t') → t.m_agc_cur ≤ t'.m_agc_cur) :=
  climb_to_brightest _ (ctor mem0) (by decide) (by decide)

/-- C13. Descent to the dimmest point: on the table of the source, from every
index `i ≤ 4`, for every sequence of non-blocking `autorange` calls whose
clear readings are all below 4990, every call returns; after the call number
`k + 1` the index is `i - (k + 1)` (0 once `k + 1 ≥ i`), and that call returns
`true` exactly when `i ≤ k`. So the index never increases, the first `i` calls
return `false` and bring it to 0, and every later call returns `true` with the
index still 0. -/
theorem descend_to_dimmest (calls : List (Bool × RGBC × RGBC)) (s : TCS34725)
    (hi : s.m_agc_cur ≤ 4)
    (hall : ∀ call ∈ calls, call.1 = true ∧ call.2.1.c < 4990) :
    ∃ out, autorangeLog m_agc_lst calls s = some out ∧ out.length = calls.length ∧
      (∀ k b t, out[k]? = some (b, t) →
        t.m_agc_cur = s.m_agc_cur - (k + 1) ∧ (b = true ↔ s.m_agc_cur ≤ k)) ∧
      (∀ k b t, out[k]? = some (b, t) →
        t.m_agc_cur ≤ s.m_agc_cur ∧
          ∀ b' t', out[k + 1]? = some (b', t') → t'.m_agc_cur ≤ t.m_agc_cur) := by
  have main : ∃ out, autorangeLog m_agc_lst calls s = some out ∧
      out.length = calls.length ∧
      (∀ k b t, out[k]? = some (b, t) →
        t.m_agc_cur = s.m_agc_cur - (k + 1) ∧ (b = true ↔ s.m_agc_cur ≤ k)) := by
    induction calls generalizing s with
    | nil => exact ⟨[], rfl, rfl, fun k b t h => by simp at h⟩
    | cons call rest ih =>
      obtain ⟨noDelay, first, second⟩ := call
      obtain ⟨hnd, hc⟩ := hall (noDelay, first, second) (List.mem_cons_self _ _)
      simp only at hnd hc
      subst hnd
      obtain ⟨s1, hstep, hidx⟩ := descend_step first second s hi hc
      have hi1 : s1.m_agc_cur ≤ 4 := by omega
      obtain ⟨out, hout, hlen, hspec⟩ :=
        ih s1 hi1 (fun call hmem => hall call (List.mem_cons_of_mem _ hmem))
      refine ⟨(decide (s.m_agc_cur = 0), s1) :: out, ?_, ?_, ?_⟩
      · simp only [autorangeLog, hstep, hout]
      · simp [hlen]
      · intro k b t hk
        cases k with
        | zero =>
          simp only [List.getElem?_cons_zero, Option.some.injEq, Prod.mk.injEq] at hk
          obtain ⟨hb, ht⟩ := hk
          subst hb ht
          refine ⟨by omega, ?_⟩
          simp only [decide_eq_true_eq]
          omega
        | succ k =>
          simp only [List.getElem?_cons_succ] at hk
          obtain ⟨h1, h2⟩ := hspec k b t hk
          refine ⟨by omega, ?_⟩
          rw [h2]
          omega
  obtain ⟨out, hout, hlen, hspec⟩ := main
  refine ⟨out, hout, hlen, hspec, ?_⟩
  intro k b t hk
  obtain ⟨h1, -⟩ := hspec k b t hk
  refine ⟨by omega, ?_⟩
  intro b' t' hk'
  obtain ⟨h2, -⟩ := hspec (k + 1) b' t' hk'
  omega

/-- C13 from the constructed object (index 3): three calls returning `false`
reach index 0, the fourth returns `true` at index 0. -/
theorem descend_to_dimmest_witness :
    ∃ out, autorangeLog m_agc_lst
        [(true, ⟨0, 0, 0, 4989⟩, ⟨0, 0, 0, 0⟩), (true, ⟨0, 0, 0, 0⟩, ⟨0, 0, 0, 0⟩),
         (true, ⟨0, 0, 0, 100⟩, ⟨0, 0, 0, 0⟩), (true, ⟨0, 0, 0, 4000⟩, ⟨0, 0, 0, 0⟩)]
        (ctor mem0) = some out ∧
      out.length = 4 ∧
      (∀ k b t, out[k]? = some (b, t) →
        t.m_agc_cur = (ctor mem0).m_agc_cur - (k + 1) ∧
          (b = true ↔ (ctor mem0).m_agc_cur ≤ k)) ∧
      (∀ k b t, out[k]? = some (b, t) →
        t.m_agc_cur ≤ (ctor mem0).m_agc_cur ∧
          ∀ b' t', out[k + 1]? = some (b', t') → t'.m_agc_cur ≤ t.m_agc_cur) :=
  descend_to_dimmest _ (ctor mem0) (by decide) (by decide)

/-- C14, as stated, fails: after `setGainTime` at row 3 of the table of the
source (register value 192), the cached `m_atime_ms` is 153, which is not
(256 - 192) x 2.4 = 153.6. -/
theorem cached_integration_time_counterexample :
    ∃ s', setGainTime m_agc_lst (ctor mem0) = some s' ∧ s'.m_atime = 192 ∧
      s'.m_atime_ms = 153 ∧
      ((s'.m_atime_ms : ℚ) ≠ (256 - (s'.m_atime : ℚ)) * (24 / 10)) := by
  obtain ⟨s', hset, -, ⟨h1, h2, -⟩, -⟩ :=
    @setGainTime_cached m_agc_lst (ctor mem0) ⟨.TCS34725_GAIN_4X, 192, 15740, 63000⟩ rfl
      (by decide)
  refine ⟨s', hset, h1, h2, ?_⟩
  rw [h1, h2]
  norm_num

/-- C14, amended. After `setGainTime` at a row `e` whose register value
`e.atime` fits in 8 bits, the cached `m_atime` is `e.atime`, the cached
`m_atime_ms` is the integer part of (256 - atime) x 2.4 (153 for register 192,
614 for register 0), the cached `m_againx` is the multiplier 1, 4, 16 or 60 of
the gain of the row, and `m_count_per_lux` is
`m_atime_ms * m_againx / (1.0 * 310.0)` (exact arithmetic). -/
theorem cached_integration_time (agc : List tcs_agc) (s : TCS34725) (e : tcs_agc)
    (he : agc[s.m_agc_cur]? = some e) (ha : e.atime ≤ 255) :
    ∃ s', setGainTime agc s = some s' ∧ s'.m_atime = e.atime ∧
      s'.m_atime_ms = (256 - e.atime) * 12 / 5 ∧
      ((s'.m_atime_ms : ℚ) ≤ (256 - (e.atime : ℚ)) * (24 / 10) ∧
        (256 - (e.atime : ℚ)) * (24 / 10) < (s'.m_atime_ms : ℚ) + 1) ∧
      (e.atime = 192 → s'.m_atime_ms = 153) ∧ (e.atime = 0 → s'.m_atime_ms = 614) ∧
      s'.m_againx = againx e.again ∧
      (s'.m_againx = 1 ∨ s'.m_againx = 4 ∨ s'.m_againx = 16 ∨ s'.m_againx = 60) ∧
      (e.again = .TCS34725_GAIN_1X → s'.m_againx = 1) ∧
      (e.again = .TCS34725_GAIN_4X → s'.m_againx = 4) ∧
      (e.again = .TCS34725_GAIN_16X → s'.m_againx = 16) ∧
      (e.again = .TCS34725_GAIN_60X → s'.m_againx = 60) ∧
      s'.m_count_per_lux = ((s'.m_atime_ms : ℚ) * (s'.m_againx : ℚ)) / (1 * 310) := by
  obtain ⟨s', hset, -, ⟨h1, h2, h3⟩, -, -, hcpl⟩ := setGainTime_cached he ha
  have hlo : 5 * s'.m_atime_ms ≤ 12 * (256 - e.atime) := by rw [h2]; omega
  have hhi : 12 * (256 - e.atime) < 5 * s'.m_atime_ms + 5 := by rw [h2]; omega
  have hsub : ((256 - e.atime : ℕ) : ℚ) = 256 - (e.atime : ℚ) := by
    rw [Nat.cast_sub (by omega)]
    norm_num
  have hlo' : (5 : ℚ) * s'.m_atime_ms ≤ 12 * ((256 - e.atime : ℕ) : ℚ) := by
    exact_mod_cast hlo
  have hhi' : (12 : ℚ) * ((256 - e.atime : ℕ) : ℚ) < 5 * s'.m_atime_ms + 5 := by
    exact_mod_cast hhi
  rw [hsub] at hlo' hhi'
  refine ⟨s', hset, h1, h2, ⟨by linarith, by linarith⟩, ?_, ?_, h3, ?_, ?_, ?_, ?_, ?_, hcpl⟩
  · intro h; rw [h2, h]
  · intro h; rw [h2, h]
  · rw [h3]; cases e.again <;> simp [againx]
  · intro h; rw [h3, h]; rfl
  · intro h; rw [h3, h]; rfl
  · intro h; rw [h3, h]; rfl
  · intro h; rw [h3, h]; rfl

/-- C14, amended, at row 3 of the table of the source (gain 4x, register
192). -/
theorem cached_integration_time_witness :
    ∃ s', setGainTime m_agc_lst (ctor mem0) = some s' ∧ s'.m_atime = 192 ∧
      s'.m_atime_ms = (256 - 192) * 12 / 5 ∧
      ((s'.m_atime_ms : ℚ) ≤ (256 - ((192 : ℕ) : ℚ)) * (24 / 10) ∧
        (256 - ((192 : ℕ) : ℚ)) * (24 / 10) < (s'.m_atime_ms : ℚ) + 1) ∧
      ((192 : ℕ) = 192 → s'.m_atime_ms = 153) ∧ ((192 : ℕ) = 0 → s'.m_atime_ms = 614) ∧
      s'.m_againx = againx .TCS34725_GAIN_4X ∧
      (s'.m_againx = 1 ∨ s'.m_againx = 4 ∨ s'.m_againx = 16 ∨ s'.m_againx = 60) ∧
      (tcs34725Gain_t.TCS34725_GAIN_4X = .TCS34725_GAIN_1X → s'.m_againx = 1) ∧
      (tcs34725Gain_t.TCS34725_GAIN_4X = .TCS34725_GAIN_4X → s'.m_againx = 4) ∧
      (tcs34725Gain_t.TCS34725_GAIN_4X = .TCS34725_GAIN_16X → s'.m_againx = 16) ∧
      (tcs34725Gain_t.TCS34725_GAIN_4X = .TCS34725_GAIN_60X → s'.m_againx = 60) ∧
      s'.m_count_per_lux = ((s'.m_atime_ms : ℚ) * (s'.m_againx : ℚ)) / (1 * 310) :=
  cached_integration_time m_agc_lst (ctor mem0) ⟨.TCS34725_GAIN_4X, 192, 15740, 63000⟩ rfl
    (by decide)

/-- C15. Initialization: on the constructed object, `begin()` returns exactly
what the driver's probe answers, and `isAvailable` holds the returned value;
the index stays 3 (row: gain 4x, register 192). On success the calls issued
after the driver's construction and `begin` are `setGain` with gain 4x and
`setIntegrationTime` with register 192, and the cached constants are register
192, 153 ms and multiplier 4; on failure no `setGain` / `setIntegrationTime`
is issued and the cached constants are untouched. -/
theorem begin_initializes (mem : TCS34725) (probe : Bool) :
    ∃ s', begin m_agc_lst probe (ctor mem) = some (probe, s') ∧
      s'.isAvailable = probe ∧ s'.m_agc_cur = 3 ∧
      m_agc_lst[s'.m_agc_cur]? = some ⟨.TCS34725_GAIN_4X, 192, 15740, 63000⟩ ∧
      s'.trace = [Call.construct 192 .TCS34725_GAIN_4X, Call.begin] ++
        (if probe then [Call.setGain .TCS34725_GAIN_4X, Call.setIntegrationTime 192]
         else []) ∧
      (if probe then s'.m_atime = 192 ∧ s'.m_atime_ms = 153 ∧ s'.m_againx = 4
       else s'.m_atime = mem.m_atime ∧ s'.m_atime_ms = mem.m_atime_ms ∧
        s'.m_againx = mem.m_againx ∧ s'.m_count_per_lux = mem.m_count_per_lux) := by
  cases probe
  · refine ⟨{ ctor mem with
        trace := (ctor mem).trace ++ [Call.construct 192 .TCS34725_GAIN_4X, Call.begin],
        isAvailable := false }, ?_, rfl, rfl, rfl, rfl, ?_⟩
    · have he : m_agc_lst[(ctor mem).m_agc_cur]? =
          some ⟨.TCS34725_GAIN_4X, 192, 15740, 63000⟩ := rfl
      unfold begin
      simp only [he]
      rfl
    · exact ⟨rfl, rfl, rfl, rfl⟩
  · obtain ⟨s0, hbegin, ⟨e, he, h1, h2, h3⟩, hcur, hav, htr⟩ := begin_cachedAt mem
    rw [hcur] at he
    have hrow : e = ⟨.TCS34725_GAIN_4X, 192, 15740, 63000⟩ := by
      have h := he
      simp [m_agc_lst, TCS34725_INTEGRATIONTIME_154MS] at h
      exact h.symm
    subst hrow
    refine ⟨s0, hbegin, hav, hcur, by rw [hcur]; rfl, htr, ?_⟩
    exact ⟨h1, h2, h3⟩

/-- C16. Idempotence and frame of the derived-quantity updates: for every
object, `updateLux`, `updateClearChannelRatio` and `updateColorTemperature`
applied twice give the same object as applied once, and each differs from the
original object at most in its own outputs (`maxlux` and `lux`; `cratio`;
`color_temp`): the index, the raw and compensated channels, `ir`, the
saturation fields and the cached constants are unchanged. -/
theorem derived_updates_idempotent (s : TCS34725) :
    updateLux (updateLux s) = updateLux s ∧
      updateClearChannelRatio (updateClearChannelRatio s) = updateClearChannelRatio s ∧
      updateColorTemperature (updateColorTemperature s) = updateColorTemperature s ∧
      updateLux s = { s with maxlux := (updateLux s).maxlux, lux := (updateLux s).lux } ∧
      updateClearChannelRatio s = { s with cratio := (updateClearChannelRatio s).cratio } ∧
      updateColorTemperature s =
        { s with color_temp := (updateColorTemperature s).color_temp } :=
  ⟨rfl, rfl, rfl, rfl, rfl, rfl⟩

/-- C17. Accepted-sample frame: when the first reading is neither above a
non-zero `maxcnt` nor below a non-zero `mincnt` of the current row, `autorange`
returns `true` having issued exactly one channel read (four register reads
when `noDelay`, one blocking driver read otherwise) and no `setGain`,
`setIntegrationTime` or `delay`; the index and the cached `m_atime`,
`m_atime_ms`, `m_againx`, `m_count_per_lux` are unchanged. -/
theorem autorange_accept_frame (agc : List tcs_agc) (noDelay : Bool) (first second : RGBC)
    (s : TCS34725) (e : tcs_agc) (he : agc[s.m_agc_cur]? = some e)
    (hup : ¬ (e.maxcnt ≠ 0 ∧ first.c > e.maxcnt))
    (hdn : ¬ (e.mincnt ≠ 0 ∧ first.c < e.mincnt)) :
    ∃ s', autorange agc noDelay first second s = some (true, s') ∧
      s'.trace = s.trace ++
        (if noDelay then
          [Call.read16 .TCS34725_CDATAL, Call.read16 .TCS34725_RDATAL,
            Call.read16 .TCS34725_GDATAL, Call.read16 .TCS34725_BDATAL]
         else [Call.getRawData]) ∧
      s'.m_agc_cur = s.m_agc_cur ∧ s'.m_atime = s.m_atime ∧
      s'.m_atime_ms = s.m_atime_ms ∧ s'.m_againx = s.m_againx ∧
      s'.m_count_per_lux = s.m_count_per_lux := by
  obtain ⟨f1, f2, f3, f4, f5, f6, -⟩ := firstRead_facts noDelay first s
  exact ⟨firstRead noDelay first s, autorange_keep noDelay first second he hup hdn,
    f2, f1, f3, f4, f5, f6⟩

/-- C17 on the object after `begin()` (row 3), clear reading 30000, in polled
mode. -/
theorem autorange_accept_frame_witness :
    ∃ s', autorange m_agc_lst false ⟨9000, 12000, 8000, 30000⟩ ⟨0, 0, 0, 0⟩
        (startAt m_agc_lst) = some (true, s') ∧
      s'.trace = (startAt m_agc_lst).trace ++
        (if false then
          [Call.read16 .TCS34725_CDATAL, Call.read16 .TCS34725_RDATAL,
            Call.read16 .TCS34725_GDATAL, Call.read16 .TCS34725_BDATAL]
         else [Call.getRawData]) ∧
      s'.m_agc_cur = (startAt m_agc_lst).m_agc_cur ∧
      s'.m_atime = (startAt m_agc_lst).m_atime ∧
      s'.m_atime_ms = (startAt m_agc_lst).m_atime_ms ∧
      s'.m_againx = (startAt m_agc_lst).m_againx ∧
      s'.m_count_per_lux = (startAt m_agc_lst).m_count_per_lux :=
  autorange_accept_frame m_agc_lst false ⟨9000, 12000, 8000, 30000⟩ ⟨0, 0, 0, 0⟩
    (startAt m_agc_lst) ⟨.TCS34725_GAIN_4X, 192, 15740, 63000⟩ (by decide) (by decide)
    (by decide)

/-- C18. Cache consistency invariant: on the table of the source, after a
successful `begin()` on the constructed object and any sequence of `autorange`
/ `updateData` calls (any `noDelay`, any samples), every call returns and the
cached constants describe the row `e` at the current index: `m_atime` is
`e.atime`, `m_atime_ms` is the integer part of (256 - m_atime) x 2.4, and
`m_againx` is the multiplier (1, 4, 16 or 60) of `e.again`. -/
theorem cache_consistent (mem : TCS34725) (ops : List Op) :
    ∃ s0 s' e, begin m_agc_lst true (ctor mem) = some (true, s0) ∧
      run m_agc_lst ops s0 = some s' ∧
      m_agc_lst[s'.m_agc_cur]? = some e ∧
      s'.m_atime = e.atime ∧
      s'.m_atime_ms = (256 - s'.m_atime) * 12 / 5 ∧
      (5 * s'.m_atime_ms ≤ 12 * (256 - s'.m_atime) ∧
        12 * (256 - s'.m_atime) < 5 * (s'.m_atime_ms + 1)) ∧
      s'.m_againx = againx e.again ∧
      (s'.m_againx = 1 ∨ s'.m_againx = 4 ∨ s'.m_againx = 16 ∨ s'.m_againx = 60) := by
  obtain ⟨s0, hbegin, hc0, -⟩ := begin_cachedAt mem
  obtain ⟨s', hrun, e, he, h1, h2, h3⟩ :=
    @run_cachedAt m_agc_lst (by decide) (by decide) ops s0 hc0
  refine ⟨s0, s', e, hbegin, hrun, he, h1, by rw [h1]; exact h2, ?_, h3, ?_⟩
  · rw [h1, h2]
    omega
  · rw [h3]
    cases e.again <;> simp [againx]

/-- C19. The saturation check never fires on the table of the source: in every
object reached from a successful `begin()` by `autorange` / `updateData` calls,
the cached `m_atime_ms` is 153 or 614; the next `updateData(noDelay)` returns
exactly what `autorange(noDelay)` returns, and when that is `true` it leaves
`isSaturated = false` and `saturation75 = saturation = 65535`;
`updateData(false)` returns `true` whatever the samples are. -/
theorem saturation_never_fires (mem : TCS34725) (ops : List Op) (noDelay : Bool)
    (first second : RGBC) :
    ∃ s0 s ok s1 s2, begin m_agc_lst true (ctor mem) = some (true, s0) ∧
      run m_agc_lst ops s0 = some s ∧
      (s.m_atime_ms = 153 ∨ s.m_atime_ms = 614) ∧
      autorange m_agc_lst noDelay first second s = some (ok, s1) ∧
      updateData m_agc_lst noDelay first second s = some (ok, s2) ∧
      (s2.m_atime_ms = 153 ∨ s2.m_atime_ms = 614) ∧
      (ok = true →
        s2.isSaturated = false ∧ s2.saturation = 65535 ∧ s2.saturation75 = 65535) ∧
      (noDelay = false → ok = true) := by
  obtain ⟨s0, hbegin, hc0, -⟩ := begin_cachedAt mem
  obtain ⟨s, hrun, hc⟩ := @run_cachedAt m_agc_lst (by decide) (by decide) ops s0 hc0
  obtain ⟨ok, s1, hauto, hc1, hpoll⟩ :=
    @autorange_cachedAt m_agc_lst (by decide) (by decide) noDelay first second s hc
  have hms : s.m_atime_ms = 153 ∨ s.m_atime_ms = 614 := by
    rcases cachedAt_default hc with h | h
    · exact Or.inr h.2
    · exact Or.inl h.2
  have hms1 : (s1.m_atime = 0 ∨ s1.m_atime = 192) ∧
      (s1.m_atime_ms = 153 ∨ s1.m_atime_ms = 614) := by
    rcases cachedAt_default hc1 with h | h
    · exact ⟨Or.inl h.1, Or.inr h.2⟩
    · exact ⟨Or.inr h.1, Or.inl h.2⟩
  cases ok
  · exact ⟨s0, s, false, s1, s1, hbegin, hrun, hms, hauto, updateData_reject hauto, hms1.2,
      fun h => absurd h (by decide), hpoll⟩
  · obtain ⟨s2, hupd, hsat, h75, hflag, -, hm, -⟩ := updateData_accept hauto
    have hceil : (satStage s1).saturation = 65535 := by
      rw [satStage_saturation s1 (by omega)]
      rcases hms1.1 with h | h <;> rw [h] <;> rfl
    have h75v : (satStage s1).saturation75 = 65535 := by
      rw [satStage_saturation75, if_neg (by omega), hceil]
    have hflagv : (satStage s1).isSaturated = false := by
      rw [satStage_isSaturated]
      simp only [decide_eq_false_iff_not, not_and]
      intro h
      omega
    rw [hflagv] at hupd
    exact ⟨s0, s, true, s1, s2, hbegin, hrun, hms, hauto, hupd, by rw [hm]; exact hms1.2,
      fun _ => ⟨by rw [hflag, hflagv], by rw [hsat, hceil], by rw [h75, h75v]⟩, hpoll⟩

/-- C20. IR estimate against the clear channel: for every accepted, unsaturated
sample with r + g + b > c and r + g + b + c < 131072, `ir` is
(r + g + b + c) / 2 and `ir ≥ c_raw`; `c_comp` is 0 exactly when
r + g + b = c + 1 and otherwise is `65536 - (ir - c_raw)`; every channel whose
raw count is below `ir` gets the compensated value `raw + 65536 - ir`. -/
theorem ir_at_least_clear (agc : List tcs_agc) (noDelay : Bool) (first second : RGBC)
    (s s' : TCS34725) (h : updateData agc noDelay first second s = some (true, s'))
    (hgt : s'.r_raw + s'.g_raw + s'.b_raw > s'.c_raw)
    (hlt : s'.r_raw + s'.g_raw + s'.b_raw + s'.c_raw < 131072) :
    s'.ir = (s'.r_raw + s'.g_raw + s'.b_raw + s'.c_raw) / 2 ∧
      s'.c_raw ≤ s'.ir ∧
      (s'.c_comp = 0 ↔ s'.r_raw + s'.g_raw + s'.b_raw = s'.c_raw + 1) ∧
      (s'.r_raw + s'.g_raw + s'.b_raw ≠ s'.c_raw + 1 →
        s'.c_comp = 65536 - (s'.ir - s'.c_raw)) ∧
      (s'.r_raw < s'.ir → s'.r_comp = s'.r_raw + 65536 - s'.ir) ∧
      (s'.g_raw < s'.ir → s'.g_comp = s'.g_raw + 65536 - s'.ir) ∧
      (s'.b_raw < s'.ir → s'.b_comp = s'.b_raw + 65536 - s'.ir) ∧
      (s'.c_raw < s'.ir → s'.c_comp = s'.c_raw + 65536 - s'.ir) := by
  obtain ⟨s1, -, -, hs'⟩ := updateData_true h
  subst hs'
  have hr : (irStage (satStage s1)).r_raw = s1.r_raw := rfl
  have hg : (irStage (satStage s1)).g_raw = s1.g_raw := rfl
  have hb : (irStage (satStage s1)).b_raw = s1.b_raw := rfl
  have hc : (irStage (satStage s1)).c_raw = s1.c_raw := rfl
  rw [hr, hg, hb, hc] at hgt hlt
  have hir : (irStage (satStage s1)).ir =
      (s1.r_raw + s1.g_raw + s1.b_raw + s1.c_raw) / 2 := by
    show (if s1.r_raw + s1.g_raw + s1.b_raw > s1.c_raw then
        u16 (((s1.r_raw + s1.g_raw + s1.b_raw + s1.c_raw) >>> 1 : Nat) : Int)
       else 0) = _
    rw [if_pos hgt]
    simp only [Nat.shiftRight_eq_div_pow, pow_one]
    unfold u16
    omega
  have hrc : (irStage (satStage s1)).r_comp =
      u16 ((s1.r_raw : Int) - (irStage (satStage s1)).ir) := rfl
  have hgc : (irStage (satStage s1)).g_comp =
      u16 ((s1.g_raw : Int) - (irStage (satStage s1)).ir) := rfl
  have hbc : (irStage (satStage s1)).b_comp =
      u16 ((s1.b_raw : Int) - (irStage (satStage s1)).ir) := rfl
  have hcc : (irStage (satStage s1)).c_comp =
      u16 ((s1.c_raw : Int) - (irStage (satStage s1)).ir) := rfl
  rw [hr, hg, hb, hc, hrc, hgc, hbc, hcc, hir]
  unfold u16
  refine ⟨rfl, by omega, by omega, fun _ => by omega, fun _ => by omega, fun _ => by omega,
    fun _ => by omega, fun _ => by omega⟩

/-- C20 at r = g = b = 100, c = 250 (polled cycle after `begin()`): `ir = 275`,
`r_comp = 65361`, `c_comp = 65511`. -/
theorem ir_at_least_clear_witness :
    ∃ s', updateData m_agc_lst false ⟨100, 100, 100, 250⟩ ⟨100, 100, 100, 250⟩
        (startAt m_agc_lst) = some (true, s') ∧
      s'.ir = 275 ∧ s'.r_comp = 65361 ∧ s'.c_comp = 65511 ∧
      s'.ir = (s'.r_raw + s'.g_raw + s'.b_raw + s'.c_raw) / 2 ∧
      s'.c_raw ≤ s'.ir ∧
      (s'.c_comp = 0 ↔ s'.r_raw + s'.g_raw + s'.b_raw = s'.c_raw + 1) ∧
      (s'.r_raw + s'.g_raw + s'.b_raw ≠ s'.c_raw + 1 →
        s'.c_comp = 65536 - (s'.ir - s'.c_raw)) ∧
      (s'.r_raw < s'.ir → s'.r_comp = s'.r_raw + 65536 - s'.ir) ∧
      (s'.g_raw < s'.ir → s'.g_comp = s'.g_raw + 65536 - s'.ir) ∧
      (s'.b_raw < s'.ir → s'.b_comp = s'.b_raw + 65536 - s'.ir) ∧
      (s'.c_raw < s'.ir → s'.c_comp = s'.c_raw + 65536 - s'.ir) :=
  ⟨_, rfl, by decide, by decide, by decide,
    ir_at_least_clear m_agc_lst false ⟨100, 100, 100, 250⟩ ⟨100, 100, 100, 250⟩
      (startAt m_agc_lst) _ rfl (by decide) (by decide)⟩

end TCS34725
